import Mathlib

/-!
Verification of the `actions-includes` workflow-flattening tool against its
natural-language specification.

The development shallowly embeds the Python sources:
  * `actions_includes/expressions.py` — the expression language: run-time
    values, the smart constructors (`AndF`, `OrF`, `EqF`, `NotEqF`, the binary
    named functions), partial evaluation of variables/lookups (`var_eval`),
    literal parsing (`from_literal`) and the rendering helpers they rely on;
  * `actions_includes/files.py` — local/remote file references
    (`parse_remote_path`, `get_filepath`, `get_filepath_data` with its
    download cache);
  * `actions_includes/__init__.py` — input binding (`build_inputs`) and the
    job-include expansion (`expand_workflow_jobs` and its helpers).

Python run-time values are modelled by the mutual inductive `PyVal` /
`PyList` / `PyDict` below.  Python exceptions are modelled by `Except PyErr`.
Branches of the source that re-enter the expression tokenizer (string
re-parsing) are modelled explicitly as the distinguished error
`PyErr.unmodelled`; the theorems below never depend on those branches
succeeding, and every concrete evaluation stays inside the modelled fragment.
-/

/-- Tags for the expression-language function classes of `expressions.py`:
the nine named functions registered in `NAMED_FUNCTIONS` plus the operator
classes (`NotF`, `AndF`, `OrF`, `EqF`, `NotEqF`). -/
inductive FuncTag where
  | containsF
  | startsWithF
  | endsWithF
  | toJSONF
  | fromJSONF
  | hashFilesF
  | successF
  | alwaysF
  | cancelledF
  | notTag
  | andTag
  | orTag
  | eqTag
  | neqTag
deriving DecidableEq, Repr

/-- Python exceptions (and the two modelling artefacts `fuelOut` and
`unmodelled`).  `missingRequired` and `unusedExtra` are the two `KeyError`s
raised by `build_inputs`, kept distinguishable because the spec names them
(`MissingRequiredInput` / `UnexpectedInput`). -/
inductive PyErr where
  | typeErr
  | keyErr
  | idxErr
  | valueErr
  | assertErr
  | ioErr
  | syntaxErr
  | missingRequired (name : String)
  | unusedExtraKE
  | fuelOut
  | unmodelled
deriving DecidableEq, Repr

mutual
/-- A Python run-time value as used by `expressions.py` / `__init__.py`:
`None`, `bool`, `int`, `float` (represented exactly as `m / 10 ^ e`, which is
exact for every decimal literal the code constructs), `str`, the
`exp.Value` string subclass, the `exp.Lookup` tuple subclass, a bare
function class object (what `Value('startsWith')` returns), a `Function`
instance (`call`), plus lists and string-keyed dicts (YAML data). -/
inductive PyVal where
  | none
  | bool (b : Bool)
  | int (n : Int)
  | float (m : Int) (e : Nat)
  | str (s : String)
  | value (s : String)
  | lookup (segs : PyList)
  | funcClass (f : FuncTag)
  | call (f : FuncTag) (args : PyList)
  | list (xs : PyList)
  | dict (kvs : PyDict)
deriving DecidableEq, Repr

/-- A Python list/tuple of `PyVal`s (spelled out so that structural recursion
and `DecidableEq` work in this Lean version). -/
inductive PyList where
  | nil
  | cons (hd : PyVal) (tl : PyList)
deriving DecidableEq, Repr

/-- A Python dict with string keys (insertion-ordered, as Python dicts are). -/
inductive PyDict where
  | nil
  | cons (k : String) (v : PyVal) (tl : PyDict)
deriving DecidableEq, Repr
end

/-- Build a `PyList` from a Lean list. -/
def plOfList : List PyVal → PyList
  | [] => .nil
  | x :: xs => .cons x (plOfList xs)

/-- Turn a `PyList` back into a Lean list. -/
def plToList : PyList → List PyVal
  | .nil => []
  | .cons x xs => x :: plToList xs

/-- Length of a `PyList`. -/
def plLength : PyList → Nat
  | .nil => 0
  | .cons _ xs => plLength xs + 1

/-- Build a `PyDict` from a Lean association list. -/
def pdOfList : List (String × PyVal) → PyDict
  | [] => .nil
  | (k, v) :: xs => .cons k v (pdOfList xs)

/-- `d[k]` lookup by string key (first binding wins, as in a Python dict,
whose keys are unique). -/
def pdFind : PyDict → String → Option PyVal
  | .nil, _ => Option.none
  | .cons k v tl, key => if k = key then some v else pdFind tl key

/-- `k in d` for a string key. -/
def pdHasKey (d : PyDict) (key : String) : Bool :=
  (pdFind d key).isSome

/-- `d[k] = v`: replace the value in place if the key exists (keeping its
position), otherwise append the new binding, as Python dict assignment does. -/
def pdSet : PyDict → String → PyVal → PyDict
  | .nil, key, v => .cons key v .nil
  | .cons k w tl, key, v =>
      if k = key then .cons k v tl else .cons k w (pdSet tl key v)

/-- `del d[k]` — a `KeyError` if the key is absent. -/
def pdRemove : PyDict → String → Except PyErr PyDict
  | .nil, _ => .error .keyErr
  | .cons k v tl, key =>
      if k = key then .ok tl
      else do
        let tl' ← pdRemove tl key
        .ok (.cons k v tl')

/-- `if k in d: del d[k]` (total). -/
def pdRemoveIfPresent : PyDict → String → PyDict
  | .nil, _ => .nil
  | .cons k v tl, key =>
      if k = key then tl else .cons k v (pdRemoveIfPresent tl key)

/-- Number of bindings. -/
def pdLength : PyDict → Nat
  | .nil => 0
  | .cons _ _ tl => pdLength tl + 1

/-- The keys, in insertion order. -/
def pdKeys : PyDict → List String
  | .nil => []
  | .cons k _ tl => k :: pdKeys tl

/-- The bindings, in insertion order. -/
def pdItems : PyDict → List (String × PyVal)
  | .nil => []
  | .cons k v tl => (k, v) :: pdItems tl

/-- Keep only the bindings whose key satisfies the predicate (used for the
final "remove stale jobs" pass of `expand_workflow_jobs`). -/
def pdFilterKeys : PyDict → (String → Bool) → PyDict
  | .nil, _ => .nil
  | .cons k v tl, p =>
      if p k then .cons k v (pdFilterKeys tl p) else pdFilterKeys tl p

/-- Numeric view used by Python `==`: `bool`/`int`/`float` compare by value.
The value is `m / 10 ^ e`. -/
def pyNum : PyVal → Option (Int × Nat)
  | .bool b => some (if b then 1 else 0, 0)
  | .int n => some (n, 0)
  | .float m e => some (m, e)
  | _ => Option.none

/-- Equality of the exact rationals `m₁ / 10 ^ e₁` and `m₂ / 10 ^ e₂`. -/
def numEq (m₁ : Int) (e₁ : Nat) (m₂ : Int) (e₂ : Nat) : Bool :=
  m₁ * (10 : Int) ^ e₂ == m₂ * (10 : Int) ^ e₁

mutual
/-- Python `==` on the modelled values.  `bool`/`int`/`float` compare
numerically (`True == 1`, `0 == False`, `2 == 2.0`); `str` and the `Value`
subclass compare as strings; `Lookup` compares as a tuple; dicts compare
order-insensitively.  `Function` instances define no `__eq__` in the source,
so Python falls back to identity; structurally equal terms here model the
same object (the theorems below only ever rely on this case for a term
compared with itself).  Function class objects are singletons, so identity
coincides with tag equality. -/
def pyEq : PyVal → PyVal → Bool
  | .none, .none => true
  | .bool x, .bool y => x == y
  | .bool x, .int n => numEq (if x then 1 else 0) 0 n 0
  | .bool x, .float m e => numEq (if x then 1 else 0) 0 m e
  | .int n, .bool y => numEq n 0 (if y then 1 else 0) 0
  | .int n, .int m => n == m
  | .int n, .float m e => numEq n 0 m e
  | .float m e, .bool y => numEq m e (if y then 1 else 0) 0
  | .float m e, .int n => numEq m e n 0
  | .float m₁ e₁, .float m₂ e₂ => numEq m₁ e₁ m₂ e₂
  | .str s, .str t => s == t
  | .str s, .value t => s == t
  | .value s, .str t => s == t
  | .value s, .value t => s == t
  | .lookup a, .lookup b => pyEqList a b
  | .list a, .list b => pyEqList a b
  | .dict a, .dict b => pdLength a == pdLength b && pyEqDictSub a b
  | .call f a, .call g b => f == g && pyEqList a b
  | .funcClass f, .funcClass g => f == g
  | _, _ => false

/-- Elementwise `==` of two sequences (Python list/tuple equality). -/
def pyEqList : PyList → PyList → Bool
  | .nil, .nil => true
  | .cons x xs, .cons y ys => pyEq x y && pyEqList xs ys
  | _, _ => false

/-- Every binding of the first dict is matched by an `==`-equal value under
the same key in the second (with the length check done by the caller this is
Python dict equality, keys being unique in a Python dict). -/
def pyEqDictSub : PyDict → PyDict → Bool
  | .nil, _ => true
  | .cons k v tl, other =>
      (match pdFind other k with
       | some w => pyEq v w
       | Option.none => false)
      && pyEqDictSub tl other
end

/-- Python truthiness `bool(v)` for the modelled values. -/
def pyTruthy : PyVal → Bool
  | .none => false
  | .bool b => b
  | .int n => n != 0
  | .float m _ => m != 0
  | .str s => s ≠ ""
  | .value s => s ≠ ""
  | .lookup segs => plLength segs != 0
  | .funcClass _ => true
  | .call _ _ => true
  | .list xs => plLength xs != 0
  | .dict kvs => pdLength kvs != 0

/-- The test `v in (False, None, '')` used by `AndF.__new__` / `OrF.__new__`
(tuple membership uses `==`, so `0`, `0.0` and `False` all pass). -/
def falseNullEmpty (v : PyVal) : Bool :=
  pyEq v (.bool false) || pyEq v .none || pyEq v (.str "")

/-- `isinstance(v, exp.Expression)`: `Value`, `Lookup` and `Function`
instances are `Expression` instances; a bare function class object is a
class, not an instance. -/
def isExpressionInstance : PyVal → Bool
  | .value _ => true
  | .lookup _ => true
  | .call _ _ => true
  | _ => false

/-- `isinstance(v, exp.Var)` — i.e. `isinstance(v, (Value, Lookup))`. -/
def isVarP : PyVal → Bool
  | .value _ => true
  | .lookup _ => true
  | _ => false

/-- All nested dicts have pairwise distinct keys — automatically true of
every value that comes from a Python dict (whose keys are unique); needed
because the association-list embedding could otherwise repeat a key. -/
def pdNodupKeys : PyDict → Bool
  | .nil => true
  | .cons k _ tl => !pdHasKey tl k && pdNodupKeys tl

mutual
/-- `wfKeys v`: every dict nested anywhere inside `v` has unique keys. -/
def wfKeys : PyVal → Bool
  | .lookup segs => wfKeysList segs
  | .call _ args => wfKeysList args
  | .list xs => wfKeysList xs
  | .dict kvs => pdNodupKeys kvs && wfKeysDict kvs
  | _ => true

/-- `wfKeys` over a sequence. -/
def wfKeysList : PyList → Bool
  | .nil => true
  | .cons x xs => wfKeys x && wfKeysList xs

/-- `wfKeys` over a dict's values. -/
def wfKeysDict : PyDict → Bool
  | .nil => true
  | .cons _ v tl => wfKeys v && wfKeysDict tl
end

theorem numEq_refl (m : Int) (e : Nat) : numEq m e m e = true := by
  simp [numEq]

mutual
theorem pyEq_refl : ∀ v : PyVal, wfKeys v = true → pyEq v v = true
  | .none, _ => rfl
  | .bool b, _ => by simp [pyEq]
  | .int n, _ => by simp [pyEq]
  | .float m e, _ => by simp [pyEq, numEq_refl]
  | .str s, _ => by simp [pyEq]
  | .value s, _ => by simp [pyEq]
  | .lookup segs, h => by
      simpa [pyEq] using pyEqList_refl segs (by simpa [wfKeys] using h)
  | .funcClass f, _ => by simp [pyEq]
  | .call f args, h => by
      simpa [pyEq] using pyEqList_refl args (by simpa [wfKeys] using h)
  | .list xs, h => by
      simpa [pyEq] using pyEqList_refl xs (by simpa [wfKeys] using h)
  | .dict kvs, h => by
      have h' : pdNodupKeys kvs = true ∧ wfKeysDict kvs = true := by
        simpa [wfKeys, Bool.and_eq_true] using h
      simpa [pyEq] using pyEqDictSub_refl kvs kvs h'.1 h'.2
          (fun key v hfind => hfind)

theorem pyEqList_refl : ∀ xs : PyList, wfKeysList xs = true →
    pyEqList xs xs = true
  | .nil, _ => rfl
  | .cons x xs, h => by
      have h' : wfKeys x = true ∧ wfKeysList xs = true := by
        simpa [wfKeysList, Bool.and_eq_true] using h
      simp [pyEqList, pyEq_refl x h'.1, pyEqList_refl xs h'.2]

theorem pyEqDictSub_refl : ∀ (kvs other : PyDict),
    pdNodupKeys kvs = true → wfKeysDict kvs = true →
    (∀ key v, pdFind kvs key = some v → pdFind other key = some v) →
    pyEqDictSub kvs other = true
  | .nil, _, _, _, _ => rfl
  | .cons k v tl, other, hnd, hwf, hsub => by
      have hnd' : (!pdHasKey tl k) = true ∧ pdNodupKeys tl = true := by
        simpa [pdNodupKeys, Bool.and_eq_true] using hnd
      have hwf' : wfKeys v = true ∧ wfKeysDict tl = true := by
        simpa [wfKeysDict, Bool.and_eq_true] using hwf
      have hk : pdFind other k = some v := by
        apply hsub
        simp [pdFind]
      have hrest : pyEqDictSub tl other = true := by
        apply pyEqDictSub_refl tl other hnd'.2 hwf'.2
        intro key w hfind
        apply hsub
        by_cases hkey : k = key
        · exfalso
          have : pdHasKey tl key = true := by
            simp [pdHasKey, hfind]
          rw [hkey] at hnd'
          simp [this] at hnd'
        · simp [pdFind, hkey, hfind]
      simp [pyEqDictSub, hk, pyEq_refl v hwf'.1, hrest]
end

/-- The `NAMED_FUNCTIONS` registry of `expressions.py`, keyed by lowercased
class name, in registration (class definition) order. -/
def NAMED_FUNCTIONS : List (String × FuncTag) :=
  [("contains", .containsF), ("startswith", .startsWithF),
   ("endswith", .endsWithF), ("tojson", .toJSONF), ("fromjson", .fromJSONF),
   ("hashfiles", .hashFilesF), ("success", .successF), ("always", .alwaysF),
   ("cancelled", .cancelledF)]

/-- Lookup in `NAMED_FUNCTIONS` (`s.lower() in NAMED_FUNCTIONS` /
`NAMED_FUNCTIONS[s.lower()]`). -/
def nfFind (key : String) : Option FuncTag :=
  (NAMED_FUNCTIONS.find? (fun p => p.1 = key)).map (·.2)

/-- ASCII lowercasing of one character (Python `str.lower()` handles full
Unicode; every name this code compares is ASCII). -/
def lowerCh (c : Char) : Char :=
  if 65 ≤ c.toNat ∧ c.toNat ≤ 90 then Char.ofNat (c.toNat + 32) else c

/-- Python `s.lower()`. -/
def pyLower (s : String) : String :=
  String.mk (s.data.map lowerCh)

/-- `Value.__new__`: a string whose lowercase form names a registered
function becomes the bare function class object; anything else becomes a
`Value` string.  (The source also asserts `'.' not in s`; no caller in the
modelled code reaches this constructor with a dotted string, because
`from_literal` routes every dotted/bracketed text through its `Lookup`
branch.) -/
def Value_new (s : String) : PyVal :=
  match nfFind (pyLower s) with
  | some t => .funcClass t
  | Option.none => .value s

/-- The loop body of `OrF.__new__`: fold the argument list into the
deduplicated `nargs` accumulator, short-circuiting on an operand that *is*
`True` (Python identity, so exactly the `True` object and not `1`). -/
def OrF_args : List PyVal → List PyVal → Option (List PyVal)
  | [], nargs => some nargs
  | a :: rest, nargs =>
      if a = .bool true then Option.none
      else if falseNullEmpty a then OrF_args rest nargs
      else if nargs.any (fun x => pyEq x a) then OrF_args rest nargs
      else OrF_args rest (nargs ++ [a])

/-- `OrF.__new__`: `True` short-circuits the whole call to `True`; operands
`== False/None/''` and duplicates are dropped; an empty remainder is
`False`; a single remainder is returned unchanged; otherwise an `or` node. -/
def OrF_new (args : List PyVal) : PyVal :=
  match OrF_args args [] with
  | Option.none => .bool true
  | some [] => .bool false
  | some [x] => x
  | some nargs => .call .orTag (plOfList nargs)

/-- The loop body of `AndF.__new__`: an operand `== False/None/''`
short-circuits to `False`; operands that *are* `True` and duplicates are
dropped. -/
def AndF_args : List PyVal → List PyVal → Option (List PyVal)
  | [], nargs => some nargs
  | a :: rest, nargs =>
      if falseNullEmpty a then Option.none
      else if a = .bool true then AndF_args rest nargs
      else if nargs.any (fun x => pyEq x a) then AndF_args rest nargs
      else AndF_args rest (nargs ++ [a])

/-- `AndF.__new__`: any operand `== False/None/''` makes the result `False`;
`True` operands and duplicates are dropped; an empty remainder is `True`; a
single remainder is returned unchanged; otherwise an `and` node. -/
def AndF_new (args : List PyVal) : PyVal :=
  match AndF_args args [] with
  | Option.none => .bool false
  | some [] => .bool true
  | some [x] => x
  | some nargs => .call .andTag (plOfList nargs)

/-- `EqF` through `BinInfixFunction.__new__`: with neither operand an
`Expression` instance, fold to the boolean `a == b` (`EqF.realf`); with both
operands `Value`/`Lookup` and `==`-equal, `EqF.expf` yields `True` (the
`v in (False, True)` guard passes); otherwise a symbolic `eq` node. -/
def EqF_new (a b : PyVal) : PyVal :=
  if !isExpressionInstance a && !isExpressionInstance b then .bool (pyEq a b)
  else if isVarP a && isVarP b && pyEq a b then .bool true
  else .call .eqTag (plOfList [a, b])

/-- `NotEqF` through `BinInfixFunction.__new__`: the concrete fold is
`a != b`; for `==`-equal `Value`/`Lookup` operands `NotEqF.expf` yields
`False` (which also passes the `v in (False, True)` guard); otherwise a
symbolic `neq` node. -/
def NotEqF_new (a b : PyVal) : PyVal :=
  if !isExpressionInstance a && !isExpressionInstance b then
    .bool (!pyEq a b)
  else if isVarP a && isVarP b && pyEq a b then .bool false
  else .call .neqTag (plOfList [a, b])

/-- The `name` attribute of each function class. -/
def funcName : FuncTag → String
  | .containsF => "contains"
  | .startsWithF => "startsWith"
  | .endsWithF => "endsWith"
  | .toJSONF => "toJSON"
  | .fromJSONF => "fromJSON"
  | .hashFilesF => "hashFiles"
  | .successF => "success"
  | .alwaysF => "always"
  | .cancelledF => "cancelled"
  | .notTag => "not"
  | .andTag => "and"
  | .orTag => "or"
  | .eqTag => "eq"
  | .neqTag => "neq"

/-- The Python class name (used by the metaclass `repr` of a bare class). -/
def funcClassName : FuncTag → String
  | .containsF => "ContainsF"
  | .startsWithF => "StartsWithF"
  | .endsWithF => "EndsWithF"
  | .toJSONF => "ToJSONF"
  | .fromJSONF => "FromJSONF"
  | .hashFilesF => "HashFilesF"
  | .successF => "SuccessF"
  | .alwaysF => "AlwaysF"
  | .cancelledF => "CancelledF"
  | .notTag => "NotF"
  | .andTag => "AndF"
  | .orTag => "OrF"
  | .eqTag => "EqF"
  | .neqTag => "NotEqF"

/-- The `op` attribute of the infix function classes. -/
def infixOp : FuncTag → String
  | .andTag => "&&"
  | .orTag => "||"
  | .eqTag => "=="
  | .neqTag => "!="
  | _ => ""

/-- `isinstance(v, InfixFunction)` — an `and`/`or`/`eq`/`neq` node. -/
def isInfixCall : PyVal → Bool
  | .call .andTag _ => true
  | .call .orTag _ => true
  | .call .eqTag _ => true
  | .call .neqTag _ => true
  | _ => false

/-- A single-quote character (kept out of string literals). -/
def squote : Char := Char.ofNat 39

/-- A single-quote as a one-character string. -/
def squoteS : String := String.singleton squote

/-- Double every single quote (the `v.replace("'", "''")` of `to_literal`). -/
def doubleQuotes (s : String) : String :=
  String.mk (s.data.flatMap (fun c => if c = squote then [c, c] else [c]))

/-- Zero-pad a digit string on the left to the given width. -/
def leftPadZeros (s : String) (w : Nat) : String :=
  String.mk (List.replicate (w - s.length) (Char.ofNat 48)) ++ s

/-- Python `str()` of the float `m / 10 ^ e`: digits with a decimal point
`e` places from the right (`.0` when `e = 0`).  Python would additionally
normalize trailing zeros (`str(2.50) == '2.5'`); no modelled value is
rendered through that corner. -/
def floatPyStr (m : Int) (e : Nat) : String :=
  let sign := if m < 0 then "-" else ""
  let ds := toString m.natAbs
  if e = 0 then sign ++ ds ++ ".0"
  else
    let padded := (leftPadZeros ds (e + 1)).data
    sign ++ String.mk (padded.take (padded.length - e)) ++ "." ++
      String.mk (padded.drop (padded.length - e))

mutual
/-- Python `str(v)` for the modelled values: scalars render as Python
renders them, `Value.__str__` is the bare name, `Lookup.__str__` is the
dotted/bracketed chain, a `Function` node renders through the `__str__` of
its class (`NotF` bangs its operand, parenthesized when the operand is an
infix node; infix classes join their `to_literal`-rendered operands with
the operator; the named classes render `name(arg, ...)`; the status
functions render `name()`), and a bare class renders via the
`ExpressionShortName` metaclass.  `str()` of a list/dict (their `repr`) is
not modelled — no claim coerces a container. -/
def pyStr : PyVal → Except PyErr String
  | .none => .ok "None"
  | .bool b => .ok (if b then "True" else "False")
  | .int n => .ok (toString n)
  | .float m e => .ok (floatPyStr m e)
  | .str s => .ok s
  | .value s => .ok s
  | .lookup segs => lookupStrGo segs false
  | .funcClass f =>
      .ok ("<class " ++ squoteS ++ "exp." ++ funcClassName f ++ squoteS ++ ">")
  | .call f args =>
      match f with
      | .notTag =>
          match args with
          | .cons a .nil => do
              let s ← pyStr a
              .ok (if isInfixCall a then "!(" ++ s ++ ")" else "!" ++ s)
          | _ => .error .idxErr
      | .andTag => callArgsJoin (" " ++ infixOp .andTag ++ " ") args true
      | .orTag => callArgsJoin (" " ++ infixOp .orTag ++ " ") args true
      | .eqTag => callArgsJoin (" " ++ infixOp .eqTag ++ " ") args true
      | .neqTag => callArgsJoin (" " ++ infixOp .neqTag ++ " ") args true
      | .successF => .ok (funcName .successF ++ "()")
      | .alwaysF => .ok (funcName .alwaysF ++ "()")
      | .cancelledF => .ok (funcName .cancelledF ++ "()")
      | t => do
          let inner ← callArgsJoin ", " args true
          .ok (funcName t ++ "(" ++ inner ++ ")")
  | .list _ => .error .unmodelled
  | .dict _ => .error .unmodelled

/-- `Lookup.__str__`: a `Var` element renders as `[<str of it>]`, a plain
string element renders dotted (with a `.` once the output list is
non-empty), and any other element raises `ValueError`. -/
def lookupStrGo : PyList → Bool → Except PyErr String
  | .nil, _ => .ok ""
  | .cons i rest, started =>
      if isVarP i then do
        let hd ← pyStr i
        let tl ← lookupStrGo rest true
        .ok ("[" ++ hd ++ "]" ++ tl)
      else
        match i with
        | .str s => do
            let tl ← lookupStrGo rest true
            .ok ((if started then "." else "") ++ s ++ tl)
        | _ => .error .valueErr

/-- Join the `to_literal` renderings of the arguments with a separator. -/
def callArgsJoin (sep : String) : PyList → Bool → Except PyErr String
  | .nil, _ => .ok ""
  | .cons a rest, first => do
      let s ← to_literal a
      let r ← callArgsJoin sep rest false
      .ok ((if first then "" else sep) ++ s ++ r)

/-- `to_literal`: an `Expression` renders via `str()` (spelled out per
`Expression` case exactly as `pyStr` renders it, keeping the recursion
structural); `None`, booleans and numbers render as expression literals; a
string renders single-quoted with quotes doubled; anything else raises
`ValueError`. -/
def to_literal : PyVal → Except PyErr String
  | .value s => .ok s
  | .lookup segs => lookupStrGo segs false
  | .call f args =>
      match f with
      | .notTag =>
          match args with
          | .cons a .nil => do
              let s ← pyStr a
              .ok (if isInfixCall a then "!(" ++ s ++ ")" else "!" ++ s)
          | _ => .error .idxErr
      | .andTag => callArgsJoin (" " ++ infixOp .andTag ++ " ") args true
      | .orTag => callArgsJoin (" " ++ infixOp .orTag ++ " ") args true
      | .eqTag => callArgsJoin (" " ++ infixOp .eqTag ++ " ") args true
      | .neqTag => callArgsJoin (" " ++ infixOp .neqTag ++ " ") args true
      | .successF => .ok (funcName .successF ++ "()")
      | .alwaysF => .ok (funcName .alwaysF ++ "()")
      | .cancelledF => .ok (funcName .cancelledF ++ "()")
      | t => do
          let inner ← callArgsJoin ", " args true
          .ok (funcName t ++ "(" ++ inner ++ ")")
  | .none => .ok "null"
  | .bool b => .ok (if b then "true" else "false")
  | .int n => .ok (toString n)
  | .float m e => .ok (floatPyStr m e)
  | .str s => .ok (squoteS ++ doubleQuotes s ++ squoteS)
  | _ => .error .valueErr
end

/-- Does `needle` occur inside `hay` (Python `needle in hay` on strings)? -/
def strContainsCL (needle : List Char) : List Char → Bool
  | [] => needle.isEmpty
  | c :: rest => needle.isPrefixOf (c :: rest) || strContainsCL needle rest

/-- Python `b in a` for strings. -/
def strContains (hay needle : String) : Bool :=
  strContainsCL needle.data hay.data

/-- Python `a.startswith(b)`. -/
def strStarts (s pre : String) : Bool :=
  pre.data.isPrefixOf s.data

/-- Python `a.endswith(b)`. -/
def strEnds (s suf : String) : Bool :=
  suf.data.reverse.isPrefixOf s.data.reverse

/-- The `realf` of the three binary named function classes (`ContainsF`,
`StartsWithF`, `EndsWithF`); they assert string operands, which is always
the case after the `str()` coercion of `BinFunction.__new__`. -/
def binRealf (t : FuncTag) (a b : String) : Bool :=
  match t with
  | .containsF => strContains a b
  | .startsWithF => strStarts a b
  | .endsWithF => strEnds a b
  | _ => false

/-- `BinFunction.__new__` (the constructor shared by `ContainsF`,
`StartsWithF` and `EndsWithF`): if either operand is a `Value` or a
`Lookup`, build a symbolic node; otherwise coerce **both** operands with
`str()` and compute `realf` eagerly. -/
def BinFunction_new (t : FuncTag) (a b : PyVal) : Except PyErr PyVal :=
  if isVarP a || isVarP b then .ok (.call t (plOfList [a, b]))
  else do
    let sa ← pyStr a
    let sb ← pyStr b
    .ok (.bool (binRealf t sa sb))

/-- Dict lookup keyed by an arbitrary value, using Python `==` against the
(string) keys — this is how `j in ctx` / `ctx[j]` behave when `ctx` is a
dict: a `Value` segment finds the plain-string key of the same spelling. -/
def pdFindByVal : PyDict → PyVal → Option PyVal
  | .nil, _ => Option.none
  | .cons k v tl, j => if pyEq j (.str k) then some v else pdFindByVal tl j

/-- Sequence membership by Python `==` (`j in list`, `j in tuple`). -/
def plHasEq : PyList → PyVal → Bool
  | .nil, _ => false
  | .cons x xs, j => pyEq x j || plHasEq xs j

/-- The `n`-th element of a sequence. -/
def plGet : PyList → Nat → Option PyVal
  | .nil, _ => Option.none
  | .cons x _, 0 => some x
  | .cons _ xs, n + 1 => plGet xs n

mutual
/-- Is the value hashable in Python?  Lists and dicts are not; a tuple
(`Lookup`) is hashable exactly when all its elements are; everything else
modelled here (scalars, strings, `Value`, classes, `Function` instances)
is. -/
def pyHashable : PyVal → Bool
  | .list _ => false
  | .dict _ => false
  | .lookup segs => pyHashableList segs
  | _ => true

/-- `pyHashable` over a tuple's elements. -/
def pyHashableList : PyList → Bool
  | .nil => true
  | .cons x xs => pyHashable x && pyHashableList xs
end

/-- Python `j in ctx` for the container kinds `var_eval` can walk into:
dict-key membership (which hashes `j` first, so an unhashable `j` raises
`TypeError`), sequence membership, substring test for strings (requiring a
string left operand), and `TypeError` for everything else. -/
def pyContains (ctx j : PyVal) : Except PyErr Bool :=
  match ctx with
  | .dict kvs =>
      if pyHashable j then .ok (pdFindByVal kvs j).isSome
      else .error .typeErr
  | .list xs => .ok (plHasEq xs j)
  | .lookup xs => .ok (plHasEq xs j)
  | .str s =>
      match j with
      | .str t => .ok (strContains s t)
      | .value t => .ok (strContains s t)
      | _ => .error .typeErr
  | .value s =>
      match j with
      | .str t => .ok (strContains s t)
      | .value t => .ok (strContains s t)
      | _ => .error .typeErr
  | _ => .error .typeErr

/-- A value usable as a sequence index: an `int`, or a `bool` (which indexes
as `1`/`0` in Python). -/
def intIndexOf : PyVal → Option Int
  | .int n => some n
  | .bool b => some (if b then 1 else 0)
  | _ => Option.none

/-- Sequence indexing `xs[j]` with Python semantics: an `int` (or `bool`)
index, negative indices from the end, `IndexError` out of range, and
`TypeError` for a non-integer index. -/
def plIndex (xs : PyList) (j : PyVal) : Except PyErr PyVal :=
  match intIndexOf j with
  | some n =>
      let len : Int := plLength xs
      let i : Int := if n < 0 then n + len else n
      if 0 ≤ i ∧ i < len then
        match plGet xs i.toNat with
        | some v => .ok v
        | Option.none => .error .idxErr
      else .error .idxErr
  | Option.none => .error .typeErr

/-- String indexing `s[j]` (an `int` index yields a one-character string). -/
def strIndex (s : String) (j : PyVal) : Except PyErr PyVal :=
  match intIndexOf j with
  | some n =>
      let len : Int := s.data.length
      let i : Int := if n < 0 then n + len else n
      if 0 ≤ i ∧ i < len then
        match s.data.get? i.toNat with
        | some c => .ok (.str (String.singleton c))
        | Option.none => .error .idxErr
      else .error .idxErr
  | Option.none => .error .typeErr

/-- Python `ctx[j]` for the container kinds `var_eval` can walk into (dict
indexing hashes the key, so an unhashable `j` raises `TypeError` before the
lookup). -/
def pyIndex (ctx j : PyVal) : Except PyErr PyVal :=
  match ctx with
  | .dict kvs =>
      if pyHashable j then
        match pdFindByVal kvs j with
        | some w => .ok w
        | Option.none => .error .keyErr
      else .error .typeErr
  | .list xs => plIndex xs j
  | .lookup xs => plIndex xs j
  | .str s => strIndex s j
  | .value s => strIndex s j
  | _ => .error .typeErr

/-- The `while` loop of `var_eval`: step through the segments, descending
with `ctx = ctx[j]` while `j in ctx`; stop at the first segment absent from
the current level, returning the level reached and the segments still
unconsumed (the popped segment re-inserted at the front, as the source
does). -/
def ctxWalk : PyVal → PyList → Except PyErr (PyVal × PyList)
  | ctx, .nil => .ok (ctx, .nil)
  | ctx, .cons j rest => do
      let b ← pyContains ctx j
      if b then do
        let nxt ← pyIndex ctx j
        ctxWalk nxt rest
      else .ok (ctx, .cons j rest)

mutual
/-- `var_eval`: a `Value` is substituted when its name is a key of the
context and returned unchanged otherwise; a `Lookup` first evaluates its
`Var` segments recursively, then walks the context level by level and
returns either the value reached (all segments consumed) or
`Lookup(ov)` built from the **full** partially-evaluated segment list;
anything that is not a `Var` fails the entry assertion. -/
def var_eval : PyVal → PyDict → Except PyErr PyVal
  | .value s, context =>
      match pdFind context s with
      | some w => .ok w
      | Option.none => .ok (.value s)
  | .lookup segs, context => do
      let ov ← var_eval_segs segs context
      let r ← ctxWalk (.dict context) ov
      match r with
      | (ctxv, .nil) => .ok ctxv
      | _ => .ok (.lookup ov)
  | _, _ => .error .assertErr

/-- The first loop of `var_eval`: replace each `Var` segment by its own
evaluation against the same context. -/
def var_eval_segs : PyList → PyDict → Except PyErr PyList
  | .nil, _ => .ok .nil
  | .cons j rest, context => do
      let j' ← if isVarP j then var_eval j context else .ok j
      let rest' ← var_eval_segs rest context
      .ok (.cons j' rest')
end

/-- ASCII decimal digit. -/
def isDigitCh (c : Char) : Bool :=
  48 ≤ c.toNat && c.toNat ≤ 57

/-- ASCII letter. -/
def isAlphaCh (c : Char) : Bool :=
  (65 ≤ c.toNat && c.toNat ≤ 90) || (97 ≤ c.toNat && c.toNat ≤ 122)

/-- A character of the class `[_a-zA-Z0-9\-]` (the identifier tail of the
`VALUE` / `LOOKUP` regexes). -/
def isIdentRestCh (c : Char) : Bool :=
  isAlphaCh c || isDigitCh c || c = Char.ofNat 95 || c = Char.ofNat 45

/-- ASCII hexadecimal digit. -/
def isHexCh (c : Char) : Bool :=
  isDigitCh c || (97 ≤ c.toNat && c.toNat ≤ 102) ||
    (65 ≤ c.toNat && c.toNat ≤ 70)

/-- The whitespace characters stripped by Python `str.strip()`. -/
def isPySpaceCh (c : Char) : Bool :=
  c.toNat = 32 || c.toNat = 9 || c.toNat = 10 || c.toNat = 13 ||
    c.toNat = 11 || c.toNat = 12

/-- Python `v.strip()`. -/
def pyStrip (s : String) : String :=
  String.mk (((s.data.dropWhile isPySpaceCh).reverse.dropWhile
    isPySpaceCh).reverse)

/-- One or more decimal digits. -/
def digits1 (cs : List Char) : Bool :=
  !cs.isEmpty && cs.all isDigitCh

/-- The `INT` regex `^-?[0-9]+$`. -/
def intLitMatch : List Char → Bool
  | [] => false
  | c :: rest => if c = Char.ofNat 45 then digits1 rest else digits1 (c :: rest)

/-- Digit-list value. -/
def digitsVal (cs : List Char) : Nat :=
  cs.foldl (fun a c => a * 10 + (c.toNat - 48)) 0

/-- Parse an `INT` literal. -/
def parseIntLit : List Char → Int
  | [] => 0
  | c :: rest =>
      if c = Char.ofNat 45 then -(digitsVal rest : Int)
      else (digitsVal (c :: rest) : Int)

/-- The `FLOAT` regex `^-?[0-9]+\.[0-9]+$` on the unsigned part. -/
def floatBodyMatch (cs : List Char) : Bool :=
  let ip := cs.takeWhile isDigitCh
  match cs.dropWhile isDigitCh with
  | c :: fp => !ip.isEmpty && c = Char.ofNat 46 && digits1 fp
  | [] => false

/-- The `FLOAT` regex including the optional sign. -/
def floatLitMatch : List Char → Bool
  | [] => false
  | c :: rest =>
      if c = Char.ofNat 45 then floatBodyMatch rest
      else floatBodyMatch (c :: rest)

/-- Parse the unsigned body of a `FLOAT` literal into `(mantissa, e)` with
value `mantissa / 10 ^ e` (exact, where a Python binary float would round;
no modelled comparison depends on the difference). -/
def parseFloatBody (cs : List Char) : Int × Nat :=
  let ip := cs.takeWhile isDigitCh
  let fp := (cs.dropWhile isDigitCh).drop 1
  ((digitsVal ip * 10 ^ fp.length + digitsVal fp : Nat), fp.length)

/-- Parse a `FLOAT` literal. -/
def parseFloatLit : List Char → PyVal
  | [] => .float 0 0
  | c :: rest =>
      if c = Char.ofNat 45 then
        let (m, e) := parseFloatBody rest
        .float (-m) e
      else
        let (m, e) := parseFloatBody (c :: rest)
        .float m e

/-- The `HEX` regex `^0x[0-9a-fA-F]+$`. -/
def hexLitMatch : List Char → Bool
  | c0 :: c1 :: rest =>
      c0 = Char.ofNat 48 && c1 = Char.ofNat 120 && !rest.isEmpty &&
        rest.all isHexCh
  | _ => false

/-- The `EXP` regex `^(-?[0-9]+\.\[0-9]+)-?[eE]([0-9.]+)$`.  Because the
source escapes the `[` (writing `\.\[0-9]+`), the pattern literally requires
the four characters `[0-9` followed by one or more `]` — it almost never
matches; it is embedded exactly as written. -/
def expLitTail (cs : List Char) : Bool :=
  match cs.dropWhile (fun c => c = Char.ofNat 93) with
  | [] => false
  | d :: rest =>
      let brs := cs.takeWhile (fun c => c = Char.ofNat 93)
      let (d2, rest2) :=
        if d = Char.ofNat 45 then
          match rest with
          | e :: r => (e, r)
          | [] => (d, rest)
        else (d, rest)
      !brs.isEmpty &&
        (d2 = Char.ofNat 101 || d2 = Char.ofNat 69) &&
        !rest2.isEmpty &&
        rest2.all (fun c => isDigitCh c || c = Char.ofNat 46) &&
        (if d = Char.ofNat 45 then !rest.isEmpty else true)

/-- `EXP` after the optional leading sign: digits, then the literal
characters `.`, `[`, `0`, `-`, `9`, then the `]+ -? [eE] [0-9.]+` tail. -/
def expBodyMatch (cs : List Char) : Bool :=
  let ds := cs.takeWhile isDigitCh
  match cs.dropWhile isDigitCh with
  | c1 :: c2 :: c3 :: c4 :: c5 :: rest =>
      !ds.isEmpty && c1 = Char.ofNat 46 && c2 = Char.ofNat 91 &&
        c3 = Char.ofNat 48 && c4 = Char.ofNat 45 && c5 = Char.ofNat 57 &&
        expLitTail rest
  | _ => false

/-- The `EXP` regex including the optional sign. -/
def expLitMatch : List Char → Bool
  | [] => false
  | c :: rest =>
      if c = Char.ofNat 45 then expBodyMatch rest
      else expBodyMatch (c :: rest)

/-- The `VALUE` regex `^[a-zA-Z][_a-zA-Z0-9\-]*$`. -/
def valueLitMatch : List Char → Bool
  | [] => false
  | c :: rest => isAlphaCh c && rest.all isIdentRestCh

/-- Undo the quote doubling of a single-quoted literal
(`v[1:-1].replace("''", "'")`, non-overlapping left to right). -/
def undoubleQuotes : List Char → List Char
  | [] => []
  | [c] => [c]
  | c :: d :: rest =>
      if c = squote ∧ d = squote then c :: undoubleQuotes rest
      else c :: undoubleQuotes (d :: rest)

/-- One match of the `LOOKUP` regex
`(?:\.[a-zA-Z][_a-zA-Z0-9\-]*)|(?:\[[^\]]+\])` — a dotted name or a
bracketed chunk. -/
inductive LkM where
  | dotName (s : String)
  | bracket (inner : String)
deriving DecidableEq, Repr

/-- Split at the first `]` (the bracket alternative matches up to, and
including, the first closing bracket after at least one character). -/
def bracketSplit : List Char → Option (List Char × List Char)
  | [] => Option.none
  | c :: rest =>
      if c = Char.ofNat 93 then some ([], rest)
      else (bracketSplit rest).map (fun p => (c :: p.1, p.2))

/-- `LOOKUP.search`: scan left to right; at each position try the dotted
alternative first, then the bracketed one; return the unmatched prefix, the
first match and the remaining text. -/
def lkFind : Nat → List Char → Option (List Char × LkM × List Char)
  | 0, _ => Option.none
  | _, [] => Option.none
  | fuel + 1, c :: rest =>
      if c = Char.ofNat 46 then
        match rest with
        | d :: rest2 =>
            if isAlphaCh d then
              some ([], .dotName (String.mk (d :: rest2.takeWhile
                isIdentRestCh)), rest2.dropWhile isIdentRestCh)
            else
              (lkFind fuel rest).map (fun p => (c :: p.1, p.2.1, p.2.2))
        | [] => Option.none
      else if c = Char.ofNat 91 then
        match bracketSplit rest with
        | some (inner, after) =>
            if inner.isEmpty then
              (lkFind fuel rest).map (fun p => (c :: p.1, p.2.1, p.2.2))
            else some ([], .bracket (String.mk inner), after)
        | Option.none =>
            (lkFind fuel rest).map (fun p => (c :: p.1, p.2.1, p.2.2))
      else (lkFind fuel rest).map (fun p => (c :: p.1, p.2.1, p.2.2))

/-- `LOOKUP.finditer` continued after the first match: collect the remaining
non-overlapping matches (text between matches is skipped, as the source's
`args` construction skips it). -/
def lkCollect : Nat → List Char → List LkM
  | 0, _ => []
  | fuel + 1, cs =>
      match lkFind (fuel + 1) cs with
      | some (_, m, after) => m :: lkCollect fuel after
      | Option.none => []

mutual
/-- `from_literal` (fuelled: the fuel only bounds the recursion into
bracketed sub-literals, each strictly shorter than its host text):
`null`/`true`/`false`, `INT`, `FLOAT`, opaque `HEX`/`EXP` strings, a
single-quoted string with doubled-quote unescaping, a `LOOKUP` chain, a bare
`VALUE` identifier, and otherwise `ValueError`.  An empty literal hits
`v[0]` and raises `IndexError` exactly as the source does. -/
def from_literal : Nat → String → Except PyErr PyVal
  | 0, _ => .error .fuelOut
  | fuel + 1, v0 =>
      let v := pyStrip v0
      let cs := v.data
      if v = "null" then .ok .none
      else if v = "true" then .ok (.bool true)
      else if v = "false" then .ok (.bool false)
      else if intLitMatch cs then .ok (.int (parseIntLit cs))
      else if floatLitMatch cs then .ok (parseFloatLit cs)
      else if hexLitMatch cs || expLitMatch cs then .ok (.str v)
      else
        match cs with
        | [] => .error .idxErr
        | c :: _ =>
            if c = squote ∧ cs.getLast? = some squote then
              .ok (.str (String.mk (undoubleQuotes (cs.drop 1).dropLast)))
            else
              match lkFind (cs.length + 1) cs with
              | some (pre, m, after) => do
                  let args ← lkArgsBuild fuel (m :: lkCollect
                    (after.length + 1) after)
                  .ok (.lookup (plOfList (.str (String.mk pre) :: args)))
              | Option.none =>
                  if valueLitMatch cs then .ok (Value_new v)
                  else .error .valueErr

/-- Turn the `LOOKUP` matches into the `Lookup` constructor arguments: a
dotted name contributes the bare name string, a bracketed chunk contributes
`from_literal` of its contents. -/
def lkArgsBuild : Nat → List LkM → Except PyErr (List PyVal)
  | 0, m :: _ =>
      match m with
      | _ => .error .fuelOut
  | _, [] => .ok []
  | fuel + 1, .dotName n :: rest => do
      let args ← lkArgsBuild fuel rest
      .ok (.str n :: args)
  | fuel + 1, .bracket inner :: rest => do
      let x ← from_literal fuel inner
      let args ← lkArgsBuild fuel rest
      .ok (x :: args)
end

/-- Python strings of `files.py`, modelled as character lists so that the
string surgery of `get_filepath` / `parse_remote_path` can be reasoned
about. -/
abbrev PStr := List Char

/-- A `files.FilePath`: `LocalFilePath(repo_root, path)` (each a slash-joined
pathlib path, kept as segment lists) or `RemoteFilePath(user, repo, ref,
path)`. -/
inductive FilePath where
  | loc (repoRoot : List PStr) (path : List PStr)
  | remote (user repo ref path : PStr)
deriving DecidableEq, Repr

/-- Split at the first occurrence of a character (`s.split(c, 1)`):
`none` when the character is absent. -/
def pSplitFirst (c : Char) : PStr → Option (PStr × PStr)
  | [] => Option.none
  | d :: rest =>
      if d = c then some ([], rest)
      else (pSplitFirst c rest).map (fun p => (d :: p.1, p.2))

/-- Python `c in s` for a character. -/
def pHas (c : Char) : PStr → Bool
  | [] => false
  | d :: rest => d = c || pHas c rest

/-- `s.count(c)`. -/
def pCount (c : Char) (s : PStr) : Nat :=
  (s.filter (fun d => d = c)).length

/-- `s.startswith(p)`. -/
def pStarts (pre s : PStr) : Bool :=
  pre.isPrefixOf s

/-- Accumulating scan behind `pSegments`. -/
def pSegmentsGo (cur : PStr) : PStr → List PStr
  | [] => [cur.reverse]
  | c :: rest =>
      if c = Char.ofNat 47 then cur.reverse :: pSegmentsGo [] rest
      else pSegmentsGo (c :: cur) rest

/-- Split a path string into `/`-separated segments (`s.split('/')`). -/
def pSegments (s : PStr) : List PStr :=
  pSegmentsGo [] s

/-- `parse_remote_path`: reject `docker://` names, default the ref to
`main`, normalize a bare `owner/repo` to an empty trailing path, and split
into `RemoteFilePath(user, repo, ref, path)`. -/
def parse_remote_path (action_name : PStr) : Except PyErr FilePath :=
  if pStarts "docker://".data action_name then .error .assertErr
  else
    let a :=
      if pHas (Char.ofNat 64) action_name then action_name
      else action_name ++ (Char.ofNat 64) :: "main".data
    match pSplitFirst (Char.ofNat 64) a with
    | Option.none => .error .valueErr
    | some (repoPlusPath, ref) =>
        if pHas (Char.ofNat 64) ref then .error .assertErr
        else
          let rpp :=
            if pCount (Char.ofNat 47) repoPlusPath = 1 then
              repoPlusPath ++ [Char.ofNat 47]
            else repoPlusPath
          match pSplitFirst (Char.ofNat 47) rpp with
          | Option.none => .error .valueErr
          | some (user, rest) =>
              match pSplitFirst (Char.ofNat 47) rest with
              | Option.none => .error .valueErr
              | some (repo, path) => .ok (.remote user repo ref path)

/-- `pathlib` `.resolve()` over already-split segments: empty and `.`
segments vanish, `..` pops (staying put at the root), others append. -/
def resolveSegs (segs : List PStr) : List PStr :=
  segs.foldl
    (fun acc seg =>
      if seg = [] ∨ seg = ['.'] then acc
      else if seg = ['.', '.'] then acc.dropLast
      else acc ++ [seg])
    []

/-- `path.relative_to(root)`: strip the root prefix or raise `ValueError`. -/
def relativeTo (full root : List PStr) : Except PyErr (List PStr) :=
  if root.isPrefixOf full then .ok (full.drop root.length)
  else .error .valueErr

/-- `get_filepath`: expand a leading `/` into the conventional
`./.github/includes/<filetype>s/` directory (asserting a filetype was
given); assert a `./`-relative target has no `@`; rewrite a `./`-relative
target against a Remote current document into a remote
`user/repo/<target>@ref` string; resolve a (still) `./`-relative target
against the Local current document's repository root; hand anything else to
`parse_remote_path`. -/
def get_filepath (current : FilePath) (filepath0 : PStr)
    (filetype : Option PStr) : Except PyErr FilePath := do
  let slash := Char.ofNat 47
  let dotSlash : PStr := ['.', slash]
  let fp1 : PStr ←
    if pStarts [slash] filepath0 then
      match filetype with
      | some ft =>
          pure (['.'] ++ [slash] ++ ".github".data ++ [slash] ++
            "includes".data ++ [slash] ++ ft ++ ['s'] ++ [slash] ++
            filepath0.drop 1)
      | Option.none => throw .assertErr
    else pure filepath0
  if pStarts dotSlash fp1 && pHas (Char.ofNat 64) fp1 then
    throw .assertErr
  let fp2 : PStr :=
    match current with
    | .remote user repo ref _ =>
        if pStarts dotSlash fp1 then
          user ++ [slash] ++ repo ++ [slash] ++ fp1.drop 2 ++
            [Char.ofNat 64] ++ ref
        else fp1
    | .loc _ _ => fp1
  if pStarts dotSlash fp2 then
    match current with
    | .loc root _ => do
        let localpath := resolveSegs (root ++ pSegments (fp2.drop 2))
        let repopath ← relativeTo localpath root
        .ok (.loc root repopath)
    | .remote _ _ _ _ => throw .assertErr
  else parse_remote_path fp2

/-- The result of one fetch: the downloaded text, or the stored
`IOError`/`URLError` (the source returns the exception object rather than
raising it). -/
abbrev FetchRes := Except PyErr String

/-- `get_filepath_data`, with the two external collaborators passed
explicitly: `fs` reads a local file (or yields the `IOError` the source
returns for a missing one) and `download` performs one `urllib` request.
The third result component records whether a download was performed on this
call, so that "a remote fetch happens at most once per reference" is
statable.  The cache dict appends a new key at the end, as Python dict
assignment does. -/
def get_filepath_data (fs : FilePath → FetchRes) (download : FilePath → FetchRes)
    (cache : List (FilePath × FetchRes)) (fp : FilePath) :
    FetchRes × List (FilePath × FetchRes) × Bool :=
  match fp with
  | .loc _ _ => (fs fp, cache, false)
  | .remote _ _ _ _ =>
      match cache.find? (fun p => p.1 = fp) with
      | some p => (p.2, cache, false)
      | Option.none =>
          let d := download fp
          (d, cache ++ [(fp, d)], true)

/-- `get_needs`: `d.get('needs', [])`, with a bare string wrapped in a
singleton list; any other value is returned raw (the callers' iteration
raises on it). -/
def get_needs (d : PyDict) : PyVal :=
  match pdFind d "needs" with
  | Option.none => .list .nil
  | some (.str s) => .list (.cons (.str s) .nil)
  | some v => v

/-- `get_if_exp`: a missing `if` key is `True`; an `Expression` or any
non-string value is returned as is.  A plain-string condition is wrapped in
`${{ }}` and re-parsed through the tokenizer — outside the modelled
fragment (`unmodelled`); the YAML loader already turns whole-string
`${{ … }}` conditions into `Expression` values before this function runs.
(`CommentedMapExpression` wrappers, a YAML-merge feature, are likewise not
modelled.) -/
def get_if_exp (d : PyDict) : Except PyErr PyVal :=
  match pdFind d "if" with
  | Option.none => .ok (.bool true)
  | some (.str _) => .error .unmodelled
  | some v => .ok v

/-- `exp.simplify`: an `Expression` argument is rendered back to text and
re-parsed through the tokenizer (outside the modelled fragment), as is a
string argument; any other value returns unchanged (the early
`elif not isinstance(exp, str): return exp`). -/
def simplify_e (v : PyVal) (_context : PyDict) : Except PyErr PyVal :=
  match v with
  | .value _ => .error .unmodelled
  | .lookup _ => .error .unmodelled
  | .call _ _ => .error .unmodelled
  | .str _ => .error .unmodelled
  | v => .ok v

mutual
/-- `expand_input_expressions`: dicts and lists are rebuilt with every value
expanded; an `Expression` value goes through `exp.simplify`; a string
containing `${{` goes through `exp.eval` (both re-enter the tokenizer —
outside the modelled fragment); scalars pass through; anything else raises
`TypeError`.  (The `CommentedMap` merge-attribute plumbing of the source is
YAML-comment bookkeeping with no effect on plain mappings.) -/
def expand_input_expressions (y : PyVal) (context : PyDict) :
    Except PyErr PyVal :=
  match y with
  | .dict kvs => do
      let kvs' ← expandIEDict kvs context
      .ok (.dict kvs')
  | .list xs => do
      let xs' ← expandIEList xs context
      .ok (.list xs')
  | .value s => simplify_e (.value s) context
  | .lookup segs => simplify_e (.lookup segs) context
  | .call f args => simplify_e (.call f args) context
  | .str s =>
      if strContains s "$\x7b\x7b" then .error .unmodelled
      else .ok (.str s)
  | .none => .ok .none
  | .bool b => .ok (.bool b)
  | .int n => .ok (.int n)
  | .float m e => .ok (.float m e)
  | .funcClass _ => .error .typeErr

/-- `expand_input_expressions` over a list's elements. -/
def expandIEList (xs : PyList) (context : PyDict) : Except PyErr PyList :=
  match xs with
  | .nil => .ok .nil
  | .cons x tl => do
      let x' ← expand_input_expressions x context
      let tl' ← expandIEList tl context
      .ok (.cons x' tl')

/-- `expand_input_expressions` over a dict's values. -/
def expandIEDict (kvs : PyDict) (context : PyDict) : Except PyErr PyDict :=
  match kvs with
  | .nil => .ok .nil
  | .cons k v tl => do
      let v' ← expand_input_expressions v context
      let tl' ← expandIEDict tl context
      .ok (.cons k v' tl')
end

/-- `resolve_paths` (invoked by `build_inputs` when a current filepath is
given): recurse into dict values; a non-dict value under a key starting
with `includes` would be resolved through `files.get_filepath` and replaced
by a `FilePath` object — outside the modelled fragment (no claim supplies
an `includes:` value inside `with:`); every other binding is untouched. -/
def resolve_pathsM : PyDict → Except PyErr PyDict
  | .nil => .ok .nil
  | .cons k v tl =>
      match v with
      | .dict kvs => do
          let kvs' ← resolve_pathsM kvs
          let tl' ← resolve_pathsM tl
          .ok (.cons k (.dict kvs') tl')
      | _ =>
          if strStarts k "includes" then .error .unmodelled
          else do
            let tl' ← resolve_pathsM tl
            .ok (.cons k v tl')

/-- The loop of `build_inputs` over the target's declared inputs: apply the
`default`, override from (and pop) the caller's `with` data, and raise
`KeyError` (`MissingRequiredInput`) when a truthily-`required` input is
still the marker; an input left at the marker is bound to the marker (an
empty dict).  A declared-input info that is truthy but not a dict raises
(`in_info.get('required', False)` is an attribute error) — `typeErr`
here. -/
def buildInputsGo : PyDict → PyDict → Except PyErr (PyDict × PyDict)
  | .nil, withd => .ok (.nil, withd)
  | .cons in_name in_info0 tl, withd => do
      let in_info := if pyTruthy in_info0 then in_info0 else .dict .nil
      let infod ← match in_info with
        | .dict d => pure d
        | _ => throw PyErr.typeErr
      let v0 : Option PyVal := pdFind infod "default"
      let (v1, withd') :=
        match pdFind withd in_name with
        | some w => (some w, pdRemoveIfPresent withd in_name)
        | Option.none => (v0, withd)
      let required := pyTruthy ((pdFind infod "required").getD (.bool false))
      if required ∧ v1 = Option.none then throw (PyErr.missingRequired in_name)
      else do
        let (acc, withRest) ← buildInputsGo tl withd'
        .ok (.cons in_name (v1.getD (.dict .nil)) acc, withRest)

/-- `build_inputs`: copy the caller's `with` mapping, resolve `includes`
paths in it when a current filepath is given, bind every declared input
(default, then caller override, erroring on a missing required one), and
raise `KeyError` (`UnexpectedInput`) if any `with` entry was never
consumed.  The current filepath is threaded as an opaque presence flag —
its value is only ever used inside the unmodelled `resolve_paths`
replacement. -/
def build_inputs (target include_data : PyDict) (cfp : Option String) :
    Except PyErr PyDict := do
  let withv := (pdFind include_data "with").getD (.dict .nil)
  let withd ← match withv with
    | .dict d => pure d
    | _ => throw PyErr.typeErr
  let withd ← match cfp with
    | some _ => resolve_pathsM withd
    | Option.none => pure withd
  let inputsv := (pdFind target "inputs").getD (.dict .nil)
  let inputsd ← match inputsv with
    | .dict d => pure d
    | _ => throw PyErr.typeErr
  let (acc, withRest) ← buildInputsGo inputsd withd
  if withRest ≠ .nil then throw PyErr.unusedExtraKE
  else pure acc

/-- The workflow-fetch environment: `get_workflow_data` resolves its target
through `files.get_filepath`, probes `workflow.yml` / `workflow.yaml` and
parses the YAML — all fetch-collaborator work (spec §6); it is modelled as
a map keyed by the `includes:` target string.  A missing target is the
aggregated `IOError`; a loaded document must contain `jobs`
(`assert 'jobs' in yaml_data`). -/
abbrev WorkflowEnv := List (String × PyVal)

/-- `get_workflow_data` over the modelled fetch environment. -/
def get_workflow_data (env : WorkflowEnv) (jobs_name : String) :
    Except PyErr (String × PyDict) :=
  match env.find? (fun p => p.1 = jobs_name) with
  | some p =>
      match p.2 with
      | .dict d => if pdHasKey d "jobs" then .ok (jobs_name, d)
                   else .error .assertErr
      | _ => .error .assertErr
  | Option.none => .error .ioErr

/-- `expand_job_include`: fetch the included workflow, bind its declared
inputs from the including job's `with` (wrapping any `KeyError` into
`SyntaxError`, as the source's `except KeyError` does), `del` its `inputs`
key (an unconditional `del` — a `KeyError` if absent), build the
substitution context (the document's own mapping plus the bound `inputs`),
and expand input expressions throughout the document. -/
def expand_job_include (env : WorkflowEnv) (cfp : String)
    (include_job : PyDict) : Except PyErr (String × PyDict × PyDict) := do
  let nameV ← match pdFind include_job "includes" with
    | some (.str s) => pure s
    | some _ => throw PyErr.assertErr
    | Option.none => throw PyErr.assertErr
  let (ifp, data) ← get_workflow_data env nameV
  let inputs ← (build_inputs data include_job (some cfp)).mapError
    (fun e =>
      match e with
      | .missingRequired _ => PyErr.syntaxErr
      | .unusedExtraKE => PyErr.syntaxErr
      | .keyErr => PyErr.syntaxErr
      | e => e)
  let data' ← pdRemove data "inputs"
  let context := pdSet data' "inputs" (.dict inputs)
  let data'' ← expand_input_expressions (.dict data') context
  let datad ← match data'' with
    | .dict d => pure d
    | _ => throw PyErr.typeErr
  .ok (ifp, datad, context)

/-- The step kinds recognized by `step_type`. -/
inductive StepType where
  | run
  | uses
  | includes
  | includesScript
deriving DecidableEq, Repr

/-- `step_type`: which of `run`/`uses`/`includes`/`includes-script` is
present (in that order of preference); none of them is a `ValueError`. -/
def step_type (m : PyDict) : Except PyErr StepType :=
  if pdHasKey m "run" then .ok .run
  else if pdHasKey m "uses" then .ok .uses
  else if pdHasKey m "includes" then .ok .includes
  else if pdHasKey m "includes-script" then .ok .includesScript
  else .error .valueErr

/-- `expand_step_uses`: rewrite a leading-`/` shorthand to the conventional
local include-actions path; other `uses` values pass through. -/
def expand_step_uses (v : PyDict) : Except PyErr PyDict :=
  match pdFind v "uses" with
  | some (.str s) =>
      if strStarts s "/" then
        .ok (pdSet v "uses" (.str ("./.github/includes/actions" ++ s)))
      else .ok v
  | some _ => .error .typeErr
  | Option.none => .error .keyErr

/-- The work-queue loop of `expand_job_steps`.  `run` steps pass through
(`expand_step_run` is the identity) and `uses` steps get the shorthand
rewrite; an `includes` / `includes-script` step starts the step-level
include expansion of §4.4 (document/script fetching and recursive
expansion) — outside the modelled fragment, and not reached by any claim
scenario. -/
def expandStepsQueue : Nat → List PyVal → Except PyErr (List PyVal)
  | 0, _ => .error .fuelOut
  | _, [] => .ok []
  | fuel + 1, s :: rest => do
      let sd ← match s with
        | .dict d => pure d
        | _ => throw PyErr.typeErr
      let st ← step_type sd
      match st with
      | .run => do
          let r ← expandStepsQueue fuel rest
          .ok (.dict sd :: r)
      | .uses => do
          let sd' ← expand_step_uses sd
          let r ← expandStepsQueue fuel rest
          .ok (.dict sd' :: r)
      | .includes => .error .unmodelled
      | .includesScript => .error .unmodelled

/-- `expand_job_steps`: expand the job's `steps` list through the work
queue and store the result (`assert 'steps' in job_data`). -/
def expand_job_steps (fuel : Nat) (job : PyDict) : Except PyErr PyDict := do
  match pdFind job "steps" with
  | some (.list steps) => do
      let new ← expandStepsQueue fuel (plToList steps)
      .ok (pdSet job "steps" (.list (plOfList new)))
  | some _ => .error .typeErr
  | Option.none => .error .assertErr

/-- The inner `while included_jobs:` loop of `expand_workflow_jobs`,
mirrored over the *reversed* items (the source pops from the end and
inserts each kept job at the front of the main queue, so processing the
reversed list and consing onto the queue reproduces it exactly).  For each
included job: prefix its name with the including job's name; union the
including job's `needs` with the included job's prefixed `needs`, a
singleton collapsing to the bare element (`new_needs.pop(0)`); conjoin the
including job's `if` with the included job's own via `AndF` and
`exp.simplify`; a residual `Expression` stores the *including* job's `if`
(the source stores `current_if`, not the conjunction); a `False`-like value
drops the job; `True` removes any `if` key and queues the job. -/
def processIncludedRev (ifp jobName : String) (curNeeds curIf : PyVal)
    (context : PyDict) :
    List (String × PyVal) → List (String × String × PyVal) →
    Except PyErr (List (String × String × PyVal))
  | [], q => .ok q
  | (nm, dt) :: restRev, q => do
      let dtd ← match dt with
        | .dict d => pure d
        | _ => throw PyErr.typeErr
      let newName := jobName ++ nm
      let incNeeds ← match get_needs dtd with
        | .list xs => pure (plToList xs)
        | _ => throw PyErr.typeErr
      let prefixed ← incNeeds.mapM
        (fun n =>
          match n with
          | .str s => pure (PyVal.str (jobName ++ s))
          | _ => throw PyErr.typeErr)
      let curList ← match curNeeds with
        | .list xs => pure (plToList xs)
        | _ => throw PyErr.typeErr
      let newNeeds := curList ++ prefixed
      let dt1 :=
        match newNeeds with
        | [] => dtd
        | [x] => pdSet dtd "needs" x
        | xs => pdSet dtd "needs" (.list (plOfList xs))
      let dtIf ← get_if_exp dt1
      let newIf ← simplify_e (AndF_new [curIf, dtIf]) context
      let q' ←
        if isExpressionInstance newIf then
          pure ((ifp, newName, PyVal.dict (pdSet dt1 "if" curIf)) :: q)
        else if falseNullEmpty newIf then pure q
        else if newIf = .bool true then
          pure ((ifp, newName, PyVal.dict (pdRemoveIfPresent dt1 "if")) :: q)
        else throw PyErr.assertErr
      processIncludedRev ifp jobName curNeeds curIf context restRev q'

/-- The main `while jobs:` loop of `expand_workflow_jobs`: a job without
`includes` has its steps expanded and joins the output; a job with
`includes` is replaced (at the front of the queue) by the included
workflow's jobs, renamed and rewired through `processIncludedRev`. -/
def expandJobsLoop (env : WorkflowEnv) :
    Nat → List (String × String × PyVal) → List (String × PyVal) →
    Except PyErr (List (String × PyVal))
  | 0, _, _ => .error .fuelOut
  | _, [], acc => .ok acc
  | fuel + 1, (cfp, jobName, jd) :: rest, acc => do
      let jdd ← match jd with
        | .dict d => pure d
        | _ => throw PyErr.typeErr
      if ¬ pdHasKey jdd "includes" then do
        let jd' ← expand_job_steps (fuel + 1) jdd
        expandJobsLoop env fuel rest (acc ++ [(jobName, PyVal.dict jd')])
      else do
        let curNeeds := get_needs jdd
        let curIf ← get_if_exp jdd
        let r ← expand_job_include env cfp jdd
        let (ifp, included, context) := r
        let incJobsD ← match pdFind included "jobs" with
          | some (.dict d) => pure d
          | some _ => throw PyErr.typeErr
          | Option.none => throw PyErr.assertErr
        let rest' ← processIncludedRev ifp jobName curNeeds curIf context
          (pdItems incJobsD).reverse rest
        expandJobsLoop env fuel rest' acc

/-- `expand_workflow_jobs`: expand every job include (depth-first through
the queue), then write the expanded jobs back over the original `jobs`
mapping (update-or-append per job, then delete every stale original key).
A `None` job name is replaced by `''` in the source; job names are plain
strings here.  The fuel only bounds the queue iterations (the source loops
forever on cyclic includes — spec §9 notes the missing cycle detection). -/
def expand_workflow_jobs (env : WorkflowEnv) (fuel : Nat) (cw : String)
    (wf : PyVal) : Except PyErr PyVal := do
  let wfd ← match wf with
    | .dict d => pure d
    | _ => throw PyErr.assertErr
  let jobsD ← match pdFind wfd "jobs" with
    | some (.dict d) => pure d
    | some _ => throw PyErr.typeErr
    | Option.none => throw PyErr.assertErr
  let queue := (pdItems jobsD).map (fun p => (cw, p.1, p.2))
  let newJobs ← expandJobsLoop env fuel queue []
  let jobNames := newJobs.map (·.1)
  let merged := newJobs.foldl (fun d p => pdSet d p.1 p.2) jobsD
  let final := pdFilterKeys merged (fun k => jobNames.contains k)
  .ok (.dict (pdSet wfd "jobs" (.dict final)))

/-- The `jobs` mapping of a workflow document (empty for malformed input;
only applied to well-formed outputs below). -/
def jobsOf (wf : PyVal) : PyDict :=
  match wf with
  | .dict d =>
      match pdFind d "jobs" with
      | some (.dict j) => j
      | _ => .nil
  | _ => .nil

/-- The job names a job's `needs` entry refers to, read through the
`get_needs` normalization. -/
def needsNamesOf (job : PyVal) : List String :=
  match job with
  | .dict d =>
      match get_needs d with
      | .list xs => (plToList xs).filterMap
          (fun v => match v with | .str s => some s | _ => Option.none)
      | _ => []
  | _ => []

/-- Does some job of the mapping need a job that is not a key of the same
mapping? -/
def needs_dangling (jobs : PyDict) : Bool :=
  (pdItems jobs).any
    (fun p => (needsNamesOf p.2).any (fun n => !pdHasKey jobs n))

/-- The raw `needs` value stored on the named job of a mapping. -/
def jobNeedsRaw (jobs : PyDict) (name : String) : Option PyVal :=
  match pdFind jobs name with
  | some (.dict d) => pdFind d "needs"
  | _ => Option.none

/-- A plain `run` step, as the scenarios use. -/
def runStepS : PyVal := .dict (pdOfList [("run", .str "true")])

/-- Scenario job `A` (no needs). -/
def jobA_S : PyVal := .dict (pdOfList [("steps", .list (plOfList [runStepS]))])

/-- Scenario job `A` with a statically false `if`. -/
def jobA_false_S : PyVal :=
  .dict (pdOfList [("if", .bool false), ("steps", .list (plOfList [runStepS]))])

/-- Scenario job `B`, which needs `A`. -/
def jobB_S : PyVal :=
  .dict (pdOfList [("needs", .str "A"), ("steps", .list (plOfList [runStepS]))])

/-- The included workflow `{A, B}` of the spec's renaming scenario (its
`inputs: {}` mapping is present, as `expand_job_include`'s unconditional
`del include_yamldata['inputs']` requires of every includable workflow). -/
def wfW_S : PyVal := .dict (pdOfList
  [("inputs", .dict .nil),
   ("jobs", .dict (pdOfList [("A", jobA_S), ("B", jobB_S)]))])

/-- The same workflow with job `A` carrying `if: false`. -/
def wfW2_S : PyVal := .dict (pdOfList
  [("inputs", .dict .nil),
   ("jobs", .dict (pdOfList [("A", jobA_false_S), ("B", jobB_S)]))])

/-- The top-level workflow whose single job `Build` includes the target. -/
def topWf (target : String) : PyVal := .dict (pdOfList
  [("jobs", .dict (pdOfList
    [("Build", .dict (pdOfList [("includes", .str target)]))]))])

/-- Claim C8's expected expansion: jobs `BuildA` and `BuildB`, the latter
with its singleton `needs` collapsed to the bare string `"BuildA"`. -/
def outC8 : PyVal := .dict (pdOfList
  [("jobs", .dict (pdOfList
    [("BuildA", .dict (pdOfList [("steps", .list (plOfList [runStepS]))])),
     ("BuildB", .dict (pdOfList
       [("needs", .str "BuildA"),
        ("steps", .list (plOfList [runStepS]))]))]))])

/-- Claim C1's scenario output: only `BuildB` survives, still needing the
dropped `BuildA`. -/
def outC1 : PyVal := .dict (pdOfList
  [("jobs", .dict (pdOfList
    [("BuildB", .dict (pdOfList
       [("needs", .str "BuildA"),
        ("steps", .list (plOfList [runStepS]))]))]))])

/-- Claim C1: the claim says a dangling `needs` (here: `BuildA`, dropped by
its statically false job-level `if` while `BuildB` still needs it) makes
`expand_workflow_jobs` raise a fatal `DanglingDependency` error.  The
source contains no such check: the expansion *succeeds*, returning a
mapping in which `BuildB` needs the absent `BuildA`. -/
theorem C1_counterexample :
    expand_workflow_jobs [("w2", wfW2_S)] 50 "top" (topWf "w2") = .ok outC1 ∧
    needs_dangling (jobsOf outC1) = true ∧
    pdHasKey (jobsOf outC1) "BuildA" = false := by
  refine ⟨rfl, rfl, rfl⟩

/-- Claim C1 (amended): `expand_workflow_jobs` performs no dangling-`needs`
validation at all.  When the needed job `A` is dropped by a statically
false job-level `if`, the expansion completes without any error and the
final mapping holds exactly the job `BuildB`, whose `needs` entry still
names the absent `BuildA`. -/
theorem C1_no_dangling_needs_check :
    expand_workflow_jobs [("w2", wfW2_S)] 50 "top" (topWf "w2") = .ok outC1 ∧
    pdKeys (jobsOf outC1) = ["BuildB"] ∧
    jobNeedsRaw (jobsOf outC1) "BuildB" = some (.str "BuildA") := by
  refine ⟨rfl, rfl, rfl⟩

/-- Claim C8: after `Build` includes `{A, B}` (`B` needing `A`), the mapping
holds `BuildA` and `BuildB` — but `BuildB`'s stored `needs` value is the
bare string `"BuildA"` (the source collapses a singleton list with
`new_needs.pop(0)`), not the one-element list the claim states. -/
theorem C8_counterexample :
    expand_workflow_jobs [("w", wfW_S)] 50 "top" (topWf "w") = .ok outC8 ∧
    jobNeedsRaw (jobsOf outC8) "BuildB" = some (.str "BuildA") ∧
    (PyVal.str "BuildA" ≠ PyVal.list (.cons (.str "BuildA") .nil)) := by
  refine ⟨rfl, rfl, by decide⟩

/-- Claim C8 (amended): the expansion renames the included jobs to
`BuildA`/`BuildB` and rewires `BuildB`'s dependency onto `BuildA`; the
stored `needs` value is the bare string `"BuildA"` (a singleton union is
collapsed), which the code's own `get_needs` accessor normalizes back to
the one-element list `["BuildA"]`. -/
theorem C8_include_renaming :
    expand_workflow_jobs [("w", wfW_S)] 50 "top" (topWf "w") = .ok outC8 ∧
    pdKeys (jobsOf outC8) = ["BuildA", "BuildB"] ∧
    jobNeedsRaw (jobsOf outC8) "BuildB" = some (.str "BuildA") ∧
    (match pdFind (jobsOf outC8) "BuildB" with
     | some (.dict d) => get_needs d
     | _ => PyVal.none) = .list (.cons (.str "BuildA") .nil) := by
  refine ⟨rfl, rfl, rfl, rfl⟩

/-- The C6 target: `{inputs: {arg1: {default: 1}, arg2: {required: true}}}`. -/
def targetC6 : PyDict := pdOfList
  [("inputs", .dict (pdOfList
    [("arg1", .dict (pdOfList [("default", .int 1)])),
     ("arg2", .dict (pdOfList [("required", .bool true)]))]))]

/-- An include step/job carrying the given `with` mapping. -/
def withOf (kvs : List (String × PyVal)) : PyDict :=
  pdOfList [("with", .dict (pdOfList kvs))]

/-- Claim C6: against a target declaring `{arg1: {default: 1},
arg2: {required: true}}`, `build_inputs` raises the missing-required
`KeyError` (`MissingRequiredInput`) when `with` omits `arg2`, raises the
unused-extras `KeyError` (`UnexpectedInput`) when `with` supplies an
undeclared `arg3`, and binds exactly `{arg1: 1, arg2: 3}` when `with`
supplies only `arg2`. -/
theorem C6_build_inputs_binding :
    build_inputs targetC6 (withOf [("arg1", .int 4)]) Option.none =
      .error (.missingRequired "arg2") ∧
    build_inputs targetC6
      (withOf [("arg1", .int 2), ("arg2", .int 3), ("arg3", .int 4)])
      Option.none = .error .unusedExtraKE ∧
    build_inputs targetC6 (withOf [("arg2", .int 3)]) Option.none =
      .ok (pdOfList [("arg1", .int 1), ("arg2", .int 3)]) := by
  refine ⟨rfl, rfl, rfl⟩

/-- Claim C3: the claim's "whenever at least one operand is still a
symbolic expression the result remains a symbolic Eq/NotEq expression" is
false — for two `==`-equal `Value`/`Lookup` operands, `EqF.expf` /
`NotEqF.expf` fold the node to a concrete boolean (the source's own doctest
records `EqF(Value('a'), Value('a')) == True`). -/
theorem C3_counterexample :
    isExpressionInstance (.value "a") = true ∧
    EqF_new (.value "a") (.value "a") = .bool true ∧
    NotEqF_new (.value "a") (.value "a") = .bool false := by
  refine ⟨rfl, rfl, rfl⟩

/-- Claim C3 (amended): with both operands concrete (no `Expression`
instance), `Eq`/`NotEq` fold to `a == b` / `a != b`; with at least one
symbolic operand the node stays symbolic **except** when both operands are
`Value`/`Lookup` expressions that compare `==`-equal, in which case `Eq`
folds to `true` and `NotEq` to `false`. -/
theorem C3_eq_noteq_folding (a b : PyVal) :
    (isExpressionInstance a = false → isExpressionInstance b = false →
      EqF_new a b = .bool (pyEq a b) ∧
      NotEqF_new a b = .bool (!pyEq a b)) ∧
    ((isExpressionInstance a || isExpressionInstance b) = true →
      ((isVarP a && isVarP b && pyEq a b) = true →
        EqF_new a b = .bool true ∧ NotEqF_new a b = .bool false) ∧
      ((isVarP a && isVarP b && pyEq a b) = false →
        EqF_new a b = .call .eqTag (plOfList [a, b]) ∧
        NotEqF_new a b = .call .neqTag (plOfList [a, b]))) := by
  constructor
  · intro h1 h2
    simp [EqF_new, NotEqF_new, h1, h2]
  · intro h
    constructor
    · intro hv
      have : (!isExpressionInstance a && !isExpressionInstance b) = false := by
        cases ha : isExpressionInstance a <;>
          cases hb : isExpressionInstance b <;> simp_all
      simp [EqF_new, NotEqF_new, this, hv]
    · intro hv
      have : (!isExpressionInstance a && !isExpressionInstance b) = false := by
        cases ha : isExpressionInstance a <;>
          cases hb : isExpressionInstance b <;> simp_all
      simp [EqF_new, NotEqF_new, this, hv]

/-- Witness for C3's amended theorem at concrete operands: `1 == 1` folds
concretely, and `eq(a, 'b')` stays symbolic. -/
theorem C3_eq_noteq_folding_witness :
    EqF_new (.int 1) (.int 1) = .bool true ∧
    EqF_new (.value "a") (.str "b") =
      .call .eqTag (plOfList [.value "a", .str "b"]) :=
  ⟨((C3_eq_noteq_folding (.int 1) (.int 1)).1 rfl rfl).1,
   (((C3_eq_noteq_folding (.value "a") (.str "b")).2 (by decide)).2
     (by decide)).1⟩

/-- Claim C4: the claim's "for any operand pair where either operand is not
a concrete string, the result is a residual symbolic call" is false —
`BinFunction.__new__` coerces any non-`Value`/`Lookup` operands with
`str()` and computes eagerly: `contains(711, 11)` is `True` (`'11' in
'711'`), and `endsWith(True, 'ue')` is `True` (`'True'.endswith('ue')`). -/
theorem C4_counterexample :
    BinFunction_new .containsF (.int 711) (.int 11) = .ok (.bool true) ∧
    BinFunction_new .endsWithF (.bool true) (.str "ue") = .ok (.bool true) := by
  refine ⟨rfl, rfl⟩

/-- Claim C4 (amended): `Contains`/`StartsWith`/`EndsWith` build a residual
symbolic call exactly when an operand is a `Value` or `Lookup`; for every
other operand pair both operands are coerced with `str()` and the string
predicate is computed eagerly (so non-string concrete operands fold too);
in particular `Contains('Hello world', 'lo')` is `true` and
`StartsWith('Hello world', 'Ho')` is `false`. -/
theorem C4_bin_string_functions (t : FuncTag) (a b : PyVal)
    (_ht : t = .containsF ∨ t = .startsWithF ∨ t = .endsWithF) :
    ((isVarP a || isVarP b) = true →
      BinFunction_new t a b = .ok (.call t (plOfList [a, b]))) ∧
    ((isVarP a || isVarP b) = false → ∀ sa sb,
      pyStr a = .ok sa → pyStr b = .ok sb →
      BinFunction_new t a b = .ok (.bool (binRealf t sa sb))) ∧
    BinFunction_new .containsF (.str "Hello world") (.str "lo") =
      .ok (.bool true) ∧
    BinFunction_new .startsWithF (.str "Hello world") (.str "Ho") =
      .ok (.bool false) := by
  refine ⟨?_, ?_, rfl, rfl⟩
  · intro h
    simp [BinFunction_new, h]
  · intro h sa sb hsa hsb
    simp [BinFunction_new, h, hsa, hsb]
    rfl

/-- Witness for C4's amended theorem: a symbolic operand leaves a residual
`contains` call, while two non-string concrete operands are coerced and
computed eagerly. -/
theorem C4_bin_string_functions_witness :
    BinFunction_new .containsF (.value "a") (.str "Ho") =
      .ok (.call .containsF (plOfList [.value "a", .str "Ho"])) ∧
    BinFunction_new .containsF (.int 711) (.int 11) = .ok (.bool true) :=
  ⟨(C4_bin_string_functions .containsF (.value "a") (.str "Ho")
      (Or.inl rfl)).1 (by decide),
   ((C4_bin_string_functions .containsF (.int 711) (.int 11)
      (Or.inl rfl)).2.1 (by decide)) "711" "11" rfl rfl⟩

/-- Claim C10: the first fetch of a Remote reference stores its result —
content or download error alike — in the process-wide cache under that
reference and reports that a download happened; any later fetch of the same
reference returns the stored result unchanged without touching the network,
even if the network behaviour (`dl₂`) has changed meanwhile — so a failed
download is never retried within a run. -/
theorem C10_download_cache (fs dl1 dl2 : FilePath → FetchRes)
    (cache : List (FilePath × FetchRes)) (u r rf p : PStr)
    (h : cache.find? (fun q => q.1 = FilePath.remote u r rf p) = Option.none) :
    get_filepath_data fs dl1 cache (.remote u r rf p) =
      (dl1 (.remote u r rf p),
        cache ++ [(.remote u r rf p, dl1 (.remote u r rf p))], true) ∧
    get_filepath_data fs dl2
      (cache ++ [(.remote u r rf p, dl1 (.remote u r rf p))])
      (.remote u r rf p) =
      (dl1 (.remote u r rf p),
        cache ++ [(.remote u r rf p, dl1 (.remote u r rf p))], false) := by
  constructor
  · simp [get_filepath_data, h]
  · simp [get_filepath_data, List.find?_append, h]

/-- Witness for C10 at a concrete reference whose first download fails: the
error is cached and returned again although the second network function
would now succeed. -/
theorem C10_download_cache_witness :
    get_filepath_data (fun _ => .error .ioErr) (fun _ => .error .ioErr) []
      (.remote "u".data "r".data "main".data "p".data) =
      (.error .ioErr,
        [(.remote "u".data "r".data "main".data "p".data, .error .ioErr)],
        true) ∧
    get_filepath_data (fun _ => .error .ioErr) (fun _ => .ok "data")
      [(.remote "u".data "r".data "main".data "p".data, .error .ioErr)]
      (.remote "u".data "r".data "main".data "p".data) =
      (.error .ioErr,
        [(.remote "u".data "r".data "main".data "p".data, .error .ioErr)],
        false) := by
  have h := C10_download_cache (fun _ => .error .ioErr)
    (fun _ => .error .ioErr) (fun _ => .ok "data") []
    "u".data "r".data "main".data "p".data rfl
  simpa using h

/-- Claim C5: the claim quantifies over *every* symbolic expression `X`,
but an `Expression` that compares `==`-equal to `''` — the empty-string
`Value` — is swallowed by the `a in (False, None, '')` guard: `AndF(True,
Value(''))` is `False` (not `Value('')`), and dually `OrF(False,
Value(''))` is `False`. -/
theorem C5_counterexample :
    isExpressionInstance (.value "") = true ∧
    AndF_new [.bool true, .value ""] = .bool false ∧
    OrF_new [.bool false, .value ""] = .bool false ∧
    (PyVal.value "" ≠ .bool false) := by
  refine ⟨rfl, rfl, rfl, by decide⟩

/-- Claim C5 (amended): for every symbolic expression `X` that does not
compare `==`-equal to `False`/`None`/`''` (among `Expression` values only
the empty-string `Value` does), the condition algebra holds:
`And(false, X) = false`, `And(true, X) = X`, `Or(true, X) = true`,
`Or(false, X) = X`; an empty remainder gives `And() = true` / `Or() =
false`; duplicates are dropped and a single remainder is returned
unchanged (`And(X, X) = X`, `Or(X, X) = X`).  The `wfKeys` hypothesis only
states that dicts nested in `X` have unique keys, as every Python dict
does. -/
theorem C5_condition_algebra (X : PyVal)
    (hx : isExpressionInstance X = true)
    (hne : falseNullEmpty X = false)
    (hwf : wfKeys X = true) :
    AndF_new [.bool false, X] = .bool false ∧
    AndF_new [.bool true, X] = X ∧
    OrF_new [.bool true, X] = .bool true ∧
    OrF_new [.bool false, X] = X ∧
    AndF_new [] = .bool true ∧
    OrF_new [] = .bool false ∧
    AndF_new [X, X] = X ∧
    OrF_new [X, X] = X := by
  have hXt : X ≠ PyVal.bool true := by
    cases X <;> simp_all [isExpressionInstance]
  have hrefl : pyEq X X = true := pyEq_refl X hwf
  have hbt : falseNullEmpty (.bool true) = false := rfl
  have hbf : falseNullEmpty (.bool false) = true := rfl
  refine ⟨rfl, ?_, rfl, ?_, rfl, rfl, ?_, ?_⟩
  · simp [AndF_new, AndF_args, hbt, hne, hXt]
  · simp [OrF_new, OrF_args, hbf, hne, hXt]
  · simp [AndF_new, AndF_args, hne, hXt, hrefl]
  · simp [OrF_new, OrF_args, hne, hXt, hrefl]

/-- Witness for C5's amended theorem at the symbolic operand `Value('a')`. -/
theorem C5_condition_algebra_witness :
    AndF_new [.bool true, .value "a"] = .value "a" ∧
    OrF_new [.bool false, .value "a"] = .value "a" :=
  ⟨(C5_condition_algebra (.value "a") rfl rfl rfl).2.1,
   (C5_condition_algebra (.value "a") rfl rfl rfl).2.2.2.1⟩

/-- Monad-bind reduction for `Except` (used to unfold the `do` blocks of
the embedded functions in proofs). -/
theorem exceptBind_ok {α β : Type} (a : α) (f : α → Except PyErr β) :
    (Except.ok a : Except PyErr α) >>= f = f a := rfl

/-- Specification-side resolution of a chain of string keys through nested
dicts: `some` of the value reached when every key is present, `none` the
moment one is absent. -/
def specResolve : List String → PyVal → Option PyVal
  | [], ctx => some ctx
  | s :: rest, ctx =>
      match ctx with
      | .dict kvs =>
          match pdFind kvs s with
          | some v => specResolve rest v
          | Option.none => Option.none
      | _ => Option.none

/-- Specification-side safety of the walk: every level reached while
segments remain is a mapping (so the walk stops cleanly at a missing key
instead of interrogating a non-container). -/
def safeWalk : List String → PyVal → Bool
  | [], _ => true
  | s :: rest, ctx =>
      match ctx with
      | .dict kvs =>
          match pdFind kvs s with
          | some v => safeWalk rest v
          | Option.none => true
      | _ => false

theorem pdFindByVal_str : ∀ (kvs : PyDict) (s : String),
    pdFindByVal kvs (.str s) = pdFind kvs s
  | .nil, _ => rfl
  | .cons k v tl, s => by
      by_cases h : s = k
      · subst h
        simp [pdFindByVal, pdFind, pyEq]
      · have h' : (k = s) = False := eq_false (Ne.symm h)
        simp [pdFindByVal, pdFind, pyEq, h, h', pdFindByVal_str tl s]

theorem var_eval_segs_strs (strs : List String) (context : PyDict) :
    var_eval_segs (plOfList (strs.map PyVal.str)) context =
      .ok (plOfList (strs.map PyVal.str)) := by
  induction strs with
  | nil => rfl
  | cons s rest ih =>
      simp [plOfList, var_eval_segs, isVarP, ih, exceptBind_ok]

theorem ctxWalk_safe (strs : List String) :
    ∀ ctx : PyVal, safeWalk strs ctx = true →
    (∃ v, specResolve strs ctx = some v ∧
      ctxWalk ctx (plOfList (strs.map PyVal.str)) = .ok (v, .nil)) ∨
    (specResolve strs ctx = Option.none ∧
      ∃ c j rest, ctxWalk ctx (plOfList (strs.map PyVal.str)) =
        .ok (c, .cons j rest)) := by
  induction strs with
  | nil =>
      intro ctx _
      exact Or.inl ⟨ctx, rfl, rfl⟩
  | cons s rest ih =>
      intro ctx h
      cases ctx with
      | dict kvs =>
          cases hf : pdFind kvs s with
          | some v =>
              have hsafe : safeWalk rest v = true := by
                simpa [safeWalk, hf] using h
              have hcw : ctxWalk (.dict kvs)
                  (plOfList ((s :: rest).map PyVal.str)) =
                  ctxWalk v (plOfList (rest.map PyVal.str)) := by
                simp [plOfList, ctxWalk, pyContains, pyIndex, pyHashable,
                  pdFindByVal_str, hf, exceptBind_ok]
              rcases ih v hsafe with ⟨w, hspec, hwalk⟩ | ⟨hspec, c, j, r, hwalk⟩
              · exact Or.inl ⟨w, by simp [specResolve, hf, hspec],
                  by rw [hcw, hwalk]⟩
              · exact Or.inr ⟨by simp [specResolve, hf, hspec],
                  c, j, r, by rw [hcw, hwalk]⟩
          | none =>
              refine Or.inr ⟨by simp [specResolve, hf], .dict kvs, .str s,
                plOfList (rest.map PyVal.str), ?_⟩
              simp [plOfList, ctxWalk, pyContains, pyHashable,
                pdFindByVal_str, hf, exceptBind_ok]
      | none => simp [safeWalk] at h
      | bool b => simp [safeWalk] at h
      | int n => simp [safeWalk] at h
      | float m e => simp [safeWalk] at h
      | str t => simp [safeWalk] at h
      | value t => simp [safeWalk] at h
      | lookup segs => simp [safeWalk] at h
      | funcClass f => simp [safeWalk] at h
      | call f args => simp [safeWalk] at h
      | list xs => simp [safeWalk] at h

/-- Claim C2: two-part refutation.  (1) When the walk stops at a missing
key after a resolved prefix, `var_eval` returns `Lookup(ov)` built from the
**full** segment list — `Lookup('a','b','c')`, not the claim's
unresolved-suffix `Lookup('b','c')` (the source doctest
`tokens_eval(l2, c) == Lookup('c', 'd')` records the same).  (2) The
evaluation is not error-free: here the intermediate level resolves to the
int `5`, which supports no membership test, so `j not in ctx` raises
`TypeError`. -/
theorem C2_counterexample :
    var_eval (.lookup (plOfList [.str "a", .str "b", .str "c"]))
      (pdOfList [("a", .dict (pdOfList [("x", .int 1)]))]) =
      .ok (.lookup (plOfList [.str "a", .str "b", .str "c"])) ∧
    (PyVal.lookup (plOfList [.str "a", .str "b", .str "c"]) ≠
      PyVal.lookup (plOfList [.str "b", .str "c"])) ∧
    var_eval (.lookup (plOfList [.str "a", .str "b"]))
      (pdOfList [("a", .int 5)]) = .error .typeErr := by
  refine ⟨rfl, by decide, rfl⟩

/-- Claim C2 (amended): over any context in which every level the walk
reaches is a mapping, `var_eval` of a string-segment `Lookup` never errors:
it returns the resolved value when every segment resolves, and otherwise
stops at the first absent segment and returns a `Lookup` built from the
**full** segment list (not just the unresolved suffix).  The evaluation is
not exception-free in general, though: an intermediate value that supports
no membership test — an int, as in the counterexample — raises
`TypeError` (whereas a string intermediate still stops cleanly via the
substring test). -/
theorem C2_lookup_partial_resolution (strs : List String) (context : PyDict)
    (hsafe : safeWalk strs (.dict context) = true) :
    var_eval (.lookup (plOfList (strs.map PyVal.str))) context =
      .ok ((specResolve strs (.dict context)).getD
        (.lookup (plOfList (strs.map PyVal.str)))) := by
  have hsegs := var_eval_segs_strs strs context
  rcases ctxWalk_safe strs (.dict context) hsafe with
    ⟨v, hspec, hwalk⟩ | ⟨hspec, c, j, r, hwalk⟩
  · simp [var_eval, hsegs, hwalk, hspec, exceptBind_ok]
  · simp [var_eval, hsegs, hwalk, hspec, exceptBind_ok]

/-- Witness for C2's amended theorem: a fully resolving chain and a chain
stopped at a missing intermediate key. -/
theorem C2_lookup_partial_resolution_witness :
    var_eval (.lookup (plOfList [.str "a", .str "b"]))
      (pdOfList [("a", .dict (pdOfList [("b", .int 1)]))]) = .ok (.int 1) ∧
    var_eval (.lookup (plOfList [.str "q", .str "b"]))
      (pdOfList [("a", .dict (pdOfList [("b", .int 1)]))]) =
      .ok (.lookup (plOfList [.str "q", .str "b"])) :=
  ⟨(C2_lookup_partial_resolution ["a", "b"]
      (pdOfList [("a", .dict (pdOfList [("b", .int 1)]))]) rfl).trans rfl,
   (C2_lookup_partial_resolution ["q", "b"]
      (pdOfList [("a", .dict (pdOfList [("b", .int 1)]))]) rfl).trans rfl⟩

theorem pHas_append (c : Char) (xs ys : PStr) :
    pHas c (xs ++ ys) = (pHas c xs || pHas c ys) := by
  induction xs with
  | nil => simp [pHas]
  | cons d rest ih => simp [pHas, ih, Bool.or_assoc]

theorem pSplitFirst_append_cons (c : Char) (xs ys : PStr)
    (h : pHas c xs = false) :
    pSplitFirst c (xs ++ c :: ys) = some (xs, ys) := by
  induction xs with
  | nil => simp [pSplitFirst]
  | cons d rest ih =>
      have hd : (d = c) = False ∧ pHas c rest = false := by
        constructor
        · by_cases hdc : d = c
          · simp [pHas, hdc] at h
          · simp [hdc]
        · by_cases hr : pHas c rest
          · simp [pHas, hr] at h
          · simpa using hr
      simp [pSplitFirst, hd.1, ih hd.2]

theorem pCount_append (c : Char) (xs ys : PStr) :
    pCount c (xs ++ ys) = pCount c xs + pCount c ys := by
  simp [pCount, List.filter_append]

theorem pCount_eq_zero (c : Char) (xs : PStr) (h : pHas c xs = false) :
    pCount c xs = 0 := by
  induction xs with
  | nil => rfl
  | cons d rest ih =>
      have hd : (d = c) = False ∧ pHas c rest = false := by
        constructor
        · by_cases hdc : d = c
          · simp [pHas, hdc] at h
          · simp [hdc]
        · by_cases hr : pHas c rest
          · simp [pHas, hr] at h
          · simpa using hr
      have h2 := ih hd.2
      simp [pCount, List.filter, hd.1] at h2 ⊢
      exact h2

theorem pStarts_two_iff (a b : Char) (s : PStr) :
    pStarts [a, b] s = true ↔ ∃ t, s = a :: b :: t := by
  constructor
  · intro h
    match s, h with
    | [], h => simp [pStarts, List.isPrefixOf] at h
    | [x], h => simp [pStarts, List.isPrefixOf] at h
    | x :: y :: t, h =>
        have hxy : a = x ∧ b = y := by
          simpa [pStarts, List.isPrefixOf, Bool.and_eq_true,
            beq_iff_eq] using h
        exact ⟨t, by rw [hxy.1, hxy.2]⟩
  · rintro ⟨t, rfl⟩
    simp [pStarts, List.isPrefixOf]

theorem pStarts_dotslash_user (user rest2 : PStr)
    (hsl : pHas (Char.ofNat 47) user = false) (hdot : user ≠ ['.']) :
    pStarts ['.', Char.ofNat 47] (user ++ Char.ofNat 47 :: rest2) = false := by
  match user, hsl, hdot with
  | [], _, _ => simp [pStarts, List.isPrefixOf]
  | [c], _, hdot =>
      by_cases hc : c = '.'
      · exact absurd (by rw [hc]) hdot
      · have : ((('.' : Char) == c) = false) := by
          simp [Ne.symm hc]
        simp [pStarts, List.isPrefixOf, this]
  | c :: d :: rest, hsl, _ =>
      by_cases hc : c = '.'
      · have hd47 : d ≠ Char.ofNat 47 := by
          intro hdd
          rw [hdd] at hsl
          simp [pHas] at hsl
        have : ((Char.ofNat 47 == d) = false) := by
          simp [Ne.symm hd47]
        simp [pStarts, List.isPrefixOf, hc, this]
      · have : ((('.' : Char) == c) = false) := by
          simp [Ne.symm hc]
        simp [pStarts, List.isPrefixOf, this]

theorem pCount_cons (c d : Char) (xs : PStr) :
    pCount c (d :: xs) = (if d = c then 1 else 0) + pCount c xs := by
  by_cases h : d = c
  · simp [pCount, List.filter, h]
    omega
  · simp [pCount, List.filter, h]

theorem parse_remote_path_mk (user repo ref tpath : PStr)
    (huser_sl : pHas (Char.ofNat 47) user = false)
    (hrepo_sl : pHas (Char.ofNat 47) repo = false)
    (huser_at : pHas (Char.ofNat 64) user = false)
    (hrepo_at : pHas (Char.ofNat 64) repo = false)
    (htpath_at : pHas (Char.ofNat 64) tpath = false)
    (href_at : pHas (Char.ofNat 64) ref = false)
    (hdocker : pStarts "docker://".data
      (user ++ Char.ofNat 47 :: (repo ++ Char.ofNat 47 ::
        (tpath ++ Char.ofNat 64 :: ref))) = false) :
    parse_remote_path (user ++ Char.ofNat 47 :: (repo ++ Char.ofNat 47 ::
      (tpath ++ Char.ofNat 64 :: ref))) = .ok (.remote user repo ref tpath) := by
  have h4764 : (Char.ofNat 47 = Char.ofNat 64) = False := by decide
  have hfull_at : pHas (Char.ofNat 64)
      (user ++ Char.ofNat 47 :: (repo ++ Char.ofNat 47 ::
        (tpath ++ Char.ofNat 64 :: ref))) = true := by
    simp [pHas_append, pHas]
  have hx : pHas (Char.ofNat 64)
      (user ++ Char.ofNat 47 :: (repo ++ Char.ofNat 47 :: tpath)) = false := by
    simp [pHas_append, pHas, huser_at, hrepo_at, htpath_at, h4764]
  have hsplit1 : pSplitFirst (Char.ofNat 64)
      (user ++ Char.ofNat 47 :: (repo ++ Char.ofNat 47 ::
        (tpath ++ Char.ofNat 64 :: ref))) =
      some (user ++ Char.ofNat 47 :: (repo ++ Char.ofNat 47 :: tpath),
        ref) := by
    have := pSplitFirst_append_cons (Char.ofNat 64)
      (user ++ Char.ofNat 47 :: (repo ++ Char.ofNat 47 :: tpath)) ref hx
    simpa [List.append_assoc, List.cons_append] using this
  have hcount : pCount (Char.ofNat 47)
      (user ++ Char.ofNat 47 :: (repo ++ Char.ofNat 47 :: tpath)) =
      2 + pCount (Char.ofNat 47) tpath := by
    simp [pCount_append, pCount_cons, pCount_eq_zero _ _ huser_sl,
      pCount_eq_zero _ _ hrepo_sl]
    omega
  have hcount_ne : ¬ (pCount (Char.ofNat 47)
      (user ++ Char.ofNat 47 :: (repo ++ Char.ofNat 47 :: tpath)) = 1) := by
    rw [hcount]
    omega
  have hsplit2 : pSplitFirst (Char.ofNat 47)
      (user ++ Char.ofNat 47 :: (repo ++ Char.ofNat 47 :: tpath)) =
      some (user, repo ++ Char.ofNat 47 :: tpath) :=
    pSplitFirst_append_cons _ _ _ huser_sl
  have hsplit3 : pSplitFirst (Char.ofNat 47)
      (repo ++ Char.ofNat 47 :: tpath) = some (repo, tpath) :=
    pSplitFirst_append_cons _ _ _ hrepo_sl
  simp [parse_remote_path, hdocker, hfull_at, hsplit1, href_at, hcount_ne,
    hsplit2, hsplit3]

/-- Claim C7: a `./`-relative include target resolved against a Remote
current document is rewritten into a Remote reference at the *same*
owner/repo/ref with the target's relative path — never a Local reference.
The hypotheses state the well-formedness the source itself asserts or
presupposes: the target has no `@` (asserted), the reference components
contain no `@` (asserted by `parse_remote_path`) and no `/` (they came out
of a previous `/`-split), the owner is not the literal `.` (which would
re-trigger the `./` test against the rebuilt string) and the rebuilt string
is not a `docker://` name (asserted against). -/
theorem C7_remote_relative_include (user repo ref path tgt : PStr)
    (ft : Option PStr)
    (hstart : pStarts ['.', Char.ofNat 47] tgt = true)
    (htgt_at : pHas (Char.ofNat 64) tgt = false)
    (href_at : pHas (Char.ofNat 64) ref = false)
    (huser_sl : pHas (Char.ofNat 47) user = false)
    (hrepo_sl : pHas (Char.ofNat 47) repo = false)
    (huser_at : pHas (Char.ofNat 64) user = false)
    (hrepo_at : pHas (Char.ofNat 64) repo = false)
    (hdot : user ≠ ['.'])
    (hdocker : pStarts "docker://".data
      (user ++ Char.ofNat 47 :: (repo ++ Char.ofNat 47 ::
        (tgt.drop 2 ++ Char.ofNat 64 :: ref))) = false) :
    get_filepath (.remote user repo ref path) tgt ft =
      .ok (.remote user repo ref (tgt.drop 2)) := by
  obtain ⟨t, rfl⟩ := (pStarts_two_iff _ _ tgt).1 hstart
  have hslash : pStarts [Char.ofNat 47] ('.' :: Char.ofNat 47 :: t) =
      false := by
    simp [pStarts, List.isPrefixOf]
  have ht_at : pHas (Char.ofNat 64) t = false := by
    simpa [pHas] using htgt_at
  have hns : pStarts ['.', Char.ofNat 47]
      (user ++ Char.ofNat 47 :: (repo ++ Char.ofNat 47 ::
        (t ++ Char.ofNat 64 :: ref))) = false := by
    have := pStarts_dotslash_user user
      (repo ++ Char.ofNat 47 :: (t ++ Char.ofNat 64 :: ref)) huser_sl hdot
    simpa [List.append_assoc, List.cons_append] using this
  have hparse := parse_remote_path_mk user repo ref t huser_sl hrepo_sl
    huser_at hrepo_at ht_at href_at (by simpa [List.drop] using hdocker)
  simp [get_filepath, hslash, htgt_at, hstart, hns, hparse, exceptBind_ok,
    List.append_assoc, List.cons_append, List.singleton_append, List.drop]

/-- Witness for C7 at concrete components: `./.github/actions/blah` inside
`user/repo@ref` resolves to `user/repo/.github/actions/blah@ref`. -/
theorem C7_remote_relative_include_witness :
    get_filepath (.remote "user".data "repo".data "ref".data "a.yml".data)
      "./.github/actions/blah".data Option.none =
      .ok (.remote "user".data "repo".data "ref".data
        ".github/actions/blah".data) :=
  (C7_remote_relative_include "user".data "repo".data "ref".data
    "a.yml".data "./.github/actions/blah".data Option.none (by decide)
    (by decide) (by decide) (by decide) (by decide) (by decide) (by decide)
    (by decide) (by decide)).trans rfl

theorem alphaCh_facts (c : Char) (h : isAlphaCh c = true) :
    isDigitCh c = false ∧ isPySpaceCh c = false ∧ c ≠ Char.ofNat 45 ∧
    c ≠ Char.ofNat 46 ∧ c ≠ Char.ofNat 48 ∧ c ≠ Char.ofNat 91 ∧
    c ≠ squote := by
  simp only [isAlphaCh, Bool.or_eq_true, Bool.and_eq_true,
    decide_eq_true_eq] at h
  refine ⟨?_, ?_, ?_, ?_, ?_, ?_, ?_⟩
  · simp only [isDigitCh, Bool.and_eq_true, decide_eq_true_eq,
      Bool.eq_false_iff, ne_eq, not_and]
    omega
  · simp only [isPySpaceCh, Bool.or_eq_true, decide_eq_true_eq,
      Bool.eq_false_iff, ne_eq]
    omega
  · intro hc
    rw [hc] at h
    simp at h
  · intro hc
    rw [hc] at h
    simp at h
  · intro hc
    rw [hc] at h
    simp at h
  · intro hc
    rw [hc] at h
    simp at h
  · intro hc
    rw [hc] at h
    simp [squote] at h

theorem identRestCh_facts (c : Char) (h : isIdentRestCh c = true) :
    isPySpaceCh c = false ∧ c ≠ Char.ofNat 46 ∧ c ≠ Char.ofNat 91 := by
  simp only [isIdentRestCh, isAlphaCh, isDigitCh, Bool.or_eq_true,
    Bool.and_eq_true, decide_eq_true_eq] at h
  have hn : (65 ≤ c.toNat ∧ c.toNat ≤ 90) ∨ (97 ≤ c.toNat ∧ c.toNat ≤ 122) ∨
      (48 ≤ c.toNat ∧ c.toNat ≤ 57) ∨ c.toNat = 95 ∨ c.toNat = 45 := by
    rcases h with (((h | h) | h) | h) | h
    · exact Or.inl h
    · exact Or.inr (Or.inl h)
    · exact Or.inr (Or.inr (Or.inl h))
    · exact Or.inr (Or.inr (Or.inr (Or.inl (by rw [h]; rfl))))
    · exact Or.inr (Or.inr (Or.inr (Or.inr (by rw [h]; rfl))))
  refine ⟨?_, ?_, ?_⟩
  · simp only [isPySpaceCh, Bool.or_eq_true, decide_eq_true_eq,
      Bool.eq_false_iff, ne_eq]
    omega
  · intro hc
    rw [hc] at hn
    simp at hn
  · intro hc
    rw [hc] at hn
    simp at hn

theorem pyStrip_nospace (cs : List Char)
    (h : ∀ c ∈ cs, isPySpaceCh c = false) :
    ((cs.dropWhile isPySpaceCh).reverse.dropWhile isPySpaceCh).reverse =
      cs := by
  have h1 : cs.dropWhile isPySpaceCh = cs := by
    cases cs with
    | nil => rfl
    | cons c rest => simp [List.dropWhile, h c (by simp)]
  rw [h1]
  have h2 : cs.reverse.dropWhile isPySpaceCh = cs.reverse := by
    cases hr : cs.reverse with
    | nil => rfl
    | cons c rest =>
        have hc : c ∈ cs := by
          have : c ∈ cs.reverse := by rw [hr]; simp
          simpa using this
        simp [List.dropWhile, h c hc]
  rw [h2]
  simp

theorem lkFind_ident : ∀ (fuel : Nat) (cs : List Char),
    (∀ c ∈ cs, c ≠ Char.ofNat 46 ∧ c ≠ Char.ofNat 91) →
    lkFind fuel cs = Option.none
  | 0, cs, _ => by cases cs <;> rfl
  | _ + 1, [], _ => rfl
  | fuel + 1, c :: rest, h => by
      have hc := h c (by simp)
      have hrest : ∀ d ∈ rest, d ≠ Char.ofNat 46 ∧ d ≠ Char.ofNat 91 :=
        fun d hd => h d (by simp [hd])
      simp [lkFind, hc.1, hc.2, lkFind_ident fuel rest hrest]

/-- Claim C9: an identifier whose lowercase form is one of the nine
registered function names (the hypothesis `nfFind (pyLower s) = some t`)
never becomes a `Value`: `Value.__new__` returns the bare function class;
consequently `from_literal` of such a bare identifier (matching the `VALUE`
regex) yields the function class, never a `Value` — and since a function
class is not a `Var`, the evaluator's substitution step (guarded by
`isinstance(t, Var)`) can never substitute a context binding under such a
name. -/
theorem C9_function_name_shadowing (s : String) (t : FuncTag)
    (hmatch : valueLitMatch s.data = true)
    (hname : nfFind (pyLower s) = some t) :
    Value_new s = .funcClass t ∧
    isVarP (.funcClass t) = false ∧
    ∀ fuel, from_literal (fuel + 1) s = .ok (.funcClass t) := by
  refine ⟨by simp [Value_new, hname], rfl, ?_⟩
  intro fuel
  obtain ⟨cs⟩ := s
  match cs, hmatch with
  | c :: rest, hmatch =>
    have hsplit : isAlphaCh c = true ∧ rest.all isIdentRestCh = true := by
      simpa [valueLitMatch, Bool.and_eq_true] using hmatch
    have hca := alphaCh_facts c hsplit.1
    have hrest : ∀ d ∈ rest, isIdentRestCh d = true := by
      intro d hd
      exact List.all_eq_true.1 hsplit.2 d hd
    have hnospace : ∀ d ∈ c :: rest, isPySpaceCh d = false := by
      intro d hd
      rcases List.mem_cons.1 hd with rfl | hd'
      · exact hca.2.1
      · exact (identRestCh_facts d (hrest d hd')).1
    have hstrip : pyStrip (String.mk (c :: rest)) = String.mk (c :: rest) := by
      simp only [pyStrip]
      rw [pyStrip_nospace _ hnospace]
    have hlk : ∀ f : Nat, lkFind f (c :: rest) = Option.none := by
      intro f
      apply lkFind_ident
      intro d hd
      rcases List.mem_cons.1 hd with rfl | hd'
      · exact ⟨hca.2.2.2.1, hca.2.2.2.2.2.1⟩
      · exact ⟨(identRestCh_facts d (hrest d hd')).2.1,
          (identRestCh_facts d (hrest d hd')).2.2⟩
    have hnotnull : (String.mk (c :: rest) = "null") = False := by
      apply eq_false
      intro hh
      rw [hh] at hname
      simp [pyLower, lowerCh, nfFind, NAMED_FUNCTIONS, List.find?] at hname
    have hnottrue : (String.mk (c :: rest) = "true") = False := by
      apply eq_false
      intro hh
      rw [hh] at hname
      simp [pyLower, lowerCh, nfFind, NAMED_FUNCTIONS, List.find?] at hname
    have hnotfalse : (String.mk (c :: rest) = "false") = False := by
      apply eq_false
      intro hh
      rw [hh] at hname
      simp [pyLower, lowerCh, nfFind, NAMED_FUNCTIONS, List.find?] at hname
    have hint : intLitMatch (c :: rest) = false := by
      simp [intLitMatch, hca.2.2.1, digits1, hca.1]
    have hfloat : floatLitMatch (c :: rest) = false := by
      simp [floatLitMatch, floatBodyMatch, hca.2.2.1, List.takeWhile,
        List.dropWhile, hca.1]
    have hhex : hexLitMatch (c :: rest) = false := by
      cases rest with
      | nil => rfl
      | cons c1 rest2 => simp [hexLitMatch, hca.2.2.2.2.1]
    have hexp : expLitMatch (c :: rest) = false := by
      simp only [expLitMatch]
      rw [if_neg hca.2.2.1]
      rcases rest with _ | ⟨a2, _ | ⟨a3, _ | ⟨a4, _ | ⟨a5, r⟩⟩⟩⟩ <;>
        simp [expBodyMatch, List.takeWhile, List.dropWhile, hca.1]
    have hsq : (c = squote ∧ (c :: rest).getLast? = some squote) = False := by
      apply eq_false
      rintro ⟨hh, _⟩
      exact hca.2.2.2.2.2.2 hh
    simp only [from_literal, hstrip, String.data, hnotnull, hnottrue,
      hnotfalse, hint, hfloat, hhex, hexp, Bool.or_self, if_false,
      hsq, hlk]
    simp [Value_new, valueLitMatch, hsplit.1, hsplit.2, hname]

/-- Witness for C9 at `startsWith` (mixed case): constructing a `Value`
from it yields the `StartsWithF` class, and parsing it as a bare literal
does the same. -/
theorem C9_function_name_shadowing_witness :
    Value_new "startsWith" = .funcClass .startsWithF ∧
    from_literal 5 "startsWith" = .ok (.funcClass .startsWithF) :=
  ⟨(C9_function_name_shadowing "startsWith" .startsWithF rfl rfl).1,
   (C9_function_name_shadowing "startsWith" .startsWithF rfl rfl).2.2 4⟩
